import Mathlib

/-!
# Verification of the static-recursion check pass
# (src/librustc/middle/check_static_recursion.rs)

This file gives a shallow embedding of the compiler pass that detects
`static`/`const` items whose initializers refer back to themselves through a
chain of constant references, and proves the behavioural properties of the
pass against that embedding.

The embedding mirrors the source file:

* the syntax-tree fragment the pass walks (items, trait items, impl items,
  expressions; path expressions may carry sub-expressions, e.g. array-length
  expressions inside type arguments of a path, and compound expressions such
  as blocks may carry nested items);
* the external resolution map (`DefMap`: expression id to `Def`) and the
  declaration table (`AstMap`: node id to `AstNode`, whose `get` is modelled
  with a "unknown node" description default, following `node_to_string`);
* `CheckItemRecursionVisitor` (one recursion checker, with its `idstack` and
  `with_item_id_pushed`) and `CheckCrateVisitor` (the program visitor that
  launches one fresh checker per constant-bearing declaration);
* `check_crate`, which walks the crate and then asks the session once
  whether any error was recorded.

Both visitors are defined as fuel-indexed functions (one unit of fuel per
recursive call) so that they are total and compute by kernel reduction; the
state carries, besides the data of the source (`idstack` and the session's
diagnostic list), three specification-only observers that do not influence
control flow: the trace of stack consultations, the maximal stack depth
reached, and a flag recording whether the artificial fuel ever ran out.
-/

/-! ## The syntax-tree fragment -/

mutual

/-- An expression of an initializer body.  `path` is `ast::ExprPath` (its
`subs` are the expressions reachable inside the path's type arguments, which
the default `walk_expr` still visits); `comp` is any other compound
expression, carrying its sub-expressions and, as blocks do, nested items. -/
inductive Expr : Type where
  | path (id : Nat) (span : Nat) (subs : List Expr)
  | comp (id : Nat) (span : Nat) (subs : List Expr) (items : List Item)

/-- An `ast::Item`: a node id, a source span and the item's payload. -/
inductive Item : Type where
  | mk (id : Nat) (span : Nat) (node : ItemNode)

/-- The payload of an item (`ast::Item_`).  `itemOther` stands for every
item kind other than statics, consts, traits and impls (mods, fns, ...):
walking it visits its nested items and its expressions. -/
inductive ItemNode : Type where
  | itemStatic (init : Expr)
  | itemConst (init : Expr)
  | itemTrait (items : List TraitItem)
  | itemImpl (items : List ImplItem)
  | itemOther (items : List Item) (exprs : List Expr)

/-- An `ast::TraitItem`. -/
inductive TraitItem : Type where
  | mk (id : Nat) (span : Nat) (node : TraitItemNode)

/-- The payload of a trait item: an associated-constant declaration with an
optional default expression, or any other trait item (e.g. a method, whose
walk visits its body expressions). -/
inductive TraitItemNode : Type where
  | constTraitItem (default : Option Expr)
  | otherTraitItem (exprs : List Expr)

/-- An `ast::ImplItem`. -/
inductive ImplItem : Type where
  | mk (id : Nat) (span : Nat) (node : ImplItemNode)

/-- The payload of an impl item: an associated constant with its initializer,
or any other impl item. -/
inductive ImplItemNode : Type where
  | constImplItem (init : Expr)
  | otherImplItem (exprs : List Expr)

end

def Item.id : Item → Nat
  | .mk i _ _ => i

def Item.span : Item → Nat
  | .mk _ sp _ => sp

def Item.node : Item → ItemNode
  | .mk _ _ n => n

def TraitItem.id : TraitItem → Nat
  | .mk i _ _ => i

def TraitItem.span : TraitItem → Nat
  | .mk _ sp _ => sp

def TraitItem.node : TraitItem → TraitItemNode
  | .mk _ _ n => n

def ImplItem.id : ImplItem → Nat
  | .mk i _ _ => i

def ImplItem.span : ImplItem → Nat
  | .mk _ sp _ => sp

def ImplItem.node : ImplItem → ImplItemNode
  | .mk _ _ n => n

/-! ## The external collaborators: resolution map and declaration table -/

/-- A definition id: the crate it comes from and its node id in that crate
(`ast::DefId`). -/
structure DefId where
  krate : Nat
  node : Nat
deriving DecidableEq

/-- The id of the crate being compiled (`ast::LOCAL_CRATE`). -/
def LOCAL_CRATE : Nat := 0

/-- `ast_util::is_local`. -/
def is_local (d : DefId) : Bool := d.krate == LOCAL_CRATE

/-- The base definition a reference expression resolves to; `defOther`
covers every definition kind other than statics, consts and associated
consts (functions, locals, ...). -/
inductive Def where
  | defStatic (did : DefId) (mutbl : Bool)
  | defConst (did : DefId)
  | defAssociatedConst (did : DefId) (prov : Nat)
  | defOther
deriving DecidableEq

/-- The resolution map: expression node id to resolved base definition. -/
abbrev DefMap := List (Nat × Def)

/-- A node of the declaration table (`ast_map::Node`), as far as the pass
inspects it.  `nodeOther` carries the description `node_to_string` would
print for it. -/
inductive AstNode : Type where
  | nodeItem (it : Item)
  | nodeTraitItem (ti : TraitItem)
  | nodeImplItem (ii : ImplItem)
  | nodeForeignItem
  | nodeOther (descr : String)

/-- The declaration table: node id to node. -/
abbrev AstMap := List (Nat × AstNode)

/-- `ast_map.get`, with the `node_to_string` description of a missing id as
the default payload. -/
def AstMap.get (am : AstMap) (n : Nat) : AstNode :=
  (List.lookup n am).getD (.nodeOther "unknown node")

/-! ## Diagnostics and the visitor state -/

/-- The two diagnostics the pass can emit: `E0265` and `E0266`. -/
inductive DiagKind : Type where
  | recursiveConstant
  | unexpectedDeclarationKind
deriving DecidableEq

/-- An emitted diagnostic: kind, the span it is reported at, and its
message. -/
structure Diagnostic where
  kind : DiagKind
  span : Nat
  msg : String
deriving DecidableEq

/-- The mutable state threaded through a traversal: the recursion checker's
`idstack` and the session's accumulated diagnostics, plus three
specification-only observers that never influence control flow:
`consults` records each consultation of the stack (the id being entered and
the stack at that moment), `maxDepth` the largest stack depth reached on a
push, and `fuelOut` whether the artificial fuel of the embedding was ever
exhausted. -/
structure VisitState where
  idstack : List Nat
  diags : List Diagnostic
  consults : List (Nat × List Nat)
  maxDepth : Nat
  fuelOut : Bool
deriving DecidableEq

/-- The state a freshly constructed visitor starts from:
`CheckItemRecursionVisitor::new` gives the checker an empty `idstack`, and
the observers start empty. -/
def freshState : VisitState :=
  { idstack := [], diags := [], consults := [], maxDepth := 0, fuelOut := false }

/-- `CheckItemRecursionVisitor::with_item_id_pushed`: consult the stack for
`id`; if present, report `E0265` at the checker's root span and return
without running `f`; otherwise push `id`, run `f`, and unconditionally pop.
(`consults` and `maxDepth` only record what happened.) -/
def with_item_id_pushed (root_span : Nat) (id : Nat) (f : VisitState → VisitState)
    (s : VisitState) : VisitState :=
  let s0 := { s with consults := s.consults ++ [(id, s.idstack)] }
  if s0.idstack.contains id then
    { s0 with diags := s0.diags ++ [⟨.recursiveConstant, root_span, "recursive constant"⟩] }
  else
    let s1 := f { s0 with idstack := id :: s0.idstack,
                          maxDepth := max s0.maxDepth (s0.idstack.length + 1) }
    { s1 with idstack := s1.idstack.tail }

/-! ## The traversal requests

A visitor processes one node at a time; `VNode` is the sum of the node
shapes a visit can be asked for (single nodes for the overridden `visit_*`
methods, lists for the child sequences the generic `walk_*` helpers
iterate). -/

inductive VNode : Type where
  | vitem (it : Item)
  | vtraitItem (ti : TraitItem)
  | vimplItem (ii : ImplItem)
  | vexpr (e : Expr)
  | vitems (l : List Item)
  | vtraitItems (l : List TraitItem)
  | vimplItems (l : List ImplItem)
  | vexprs (l : List Expr)

/-! ## The recursion checker -/

/-- The traversal of one `CheckItemRecursionVisitor` with root span
`root_span`, borrowing `dm` and `am`.  One unit of fuel is spent per
recursive call; running out of fuel only sets the `fuelOut` observer.

* `vitem`/`vtraitItem`/`vimplItem` are `visit_item`/`visit_trait_item`/
  `visit_impl_item`: wrap the generic walk of the declaration in
  `with_item_id_pushed`;
* `vexpr` is `visit_expr`: on a path expression, consult the resolution map;
  a local static/const/associated-const is looked up in the declaration
  table and entered (items, trait items, impl items), a foreign item is a
  leaf, and any other node kind reports `E0266` at the expression's own span
  and returns without walking the expression's children; every other
  outcome, and every non-path expression, just walks the children. -/
def CheckItemRecursionVisitor.visit (dm : DefMap) (am : AstMap) (root_span : Nat) :
    Nat → VNode → VisitState → VisitState
  | 0, _, s => { s with fuelOut := true }
  | Nat.succ f, v, s =>
    match v with
    | .vitem (.mk id _ node) =>
      with_item_id_pushed root_span id (fun s' =>
        match node with
        | .itemStatic init => CheckItemRecursionVisitor.visit dm am root_span f (.vexpr init) s'
        | .itemConst init => CheckItemRecursionVisitor.visit dm am root_span f (.vexpr init) s'
        | .itemTrait tis => CheckItemRecursionVisitor.visit dm am root_span f (.vtraitItems tis) s'
        | .itemImpl iis => CheckItemRecursionVisitor.visit dm am root_span f (.vimplItems iis) s'
        | .itemOther its es =>
          CheckItemRecursionVisitor.visit dm am root_span f (.vexprs es)
            (CheckItemRecursionVisitor.visit dm am root_span f (.vitems its) s')) s
    | .vtraitItem (.mk id _ node) =>
      with_item_id_pushed root_span id (fun s' =>
        match node with
        | .constTraitItem (some e) =>
          CheckItemRecursionVisitor.visit dm am root_span f (.vexpr e) s'
        | .constTraitItem none => s'
        | .otherTraitItem es =>
          CheckItemRecursionVisitor.visit dm am root_span f (.vexprs es) s') s
    | .vimplItem (.mk id _ node) =>
      with_item_id_pushed root_span id (fun s' =>
        match node with
        | .constImplItem init =>
          CheckItemRecursionVisitor.visit dm am root_span f (.vexpr init) s'
        | .otherImplItem es =>
          CheckItemRecursionVisitor.visit dm am root_span f (.vexprs es) s') s
    | .vexpr (.path eid espan subs) =>
      match List.lookup eid dm with
      | some (.defStatic did _) | some (.defAssociatedConst did _) | some (.defConst did) =>
        if is_local did then
          match am.get did.node with
          | .nodeItem it =>
            CheckItemRecursionVisitor.visit dm am root_span f (.vexprs subs)
              (CheckItemRecursionVisitor.visit dm am root_span f (.vitem it) s)
          | .nodeTraitItem ti =>
            CheckItemRecursionVisitor.visit dm am root_span f (.vexprs subs)
              (CheckItemRecursionVisitor.visit dm am root_span f (.vtraitItem ti) s)
          | .nodeImplItem ii =>
            CheckItemRecursionVisitor.visit dm am root_span f (.vexprs subs)
              (CheckItemRecursionVisitor.visit dm am root_span f (.vimplItem ii) s)
          | .nodeForeignItem =>
            CheckItemRecursionVisitor.visit dm am root_span f (.vexprs subs) s
          | .nodeOther descr =>
            { s with diags :=
                s.diags ++ [⟨.unexpectedDeclarationKind, espan, "expected item, found " ++ descr⟩] }
        else CheckItemRecursionVisitor.visit dm am root_span f (.vexprs subs) s
      | _ => CheckItemRecursionVisitor.visit dm am root_span f (.vexprs subs) s
    | .vexpr (.comp _ _ subs its) =>
      CheckItemRecursionVisitor.visit dm am root_span f (.vexprs subs)
        (CheckItemRecursionVisitor.visit dm am root_span f (.vitems its) s)
    | .vitems [] => s
    | .vitems (i :: r) =>
      CheckItemRecursionVisitor.visit dm am root_span f (.vitems r)
        (CheckItemRecursionVisitor.visit dm am root_span f (.vitem i) s)
    | .vtraitItems [] => s
    | .vtraitItems (ti :: r) =>
      CheckItemRecursionVisitor.visit dm am root_span f (.vtraitItems r)
        (CheckItemRecursionVisitor.visit dm am root_span f (.vtraitItem ti) s)
    | .vimplItems [] => s
    | .vimplItems (ii :: r) =>
      CheckItemRecursionVisitor.visit dm am root_span f (.vimplItems r)
        (CheckItemRecursionVisitor.visit dm am root_span f (.vimplItem ii) s)
    | .vexprs [] => s
    | .vexprs (e :: r) =>
      CheckItemRecursionVisitor.visit dm am root_span f (.vexprs r)
        (CheckItemRecursionVisitor.visit dm am root_span f (.vexpr e) s)

/-! ## The program visitor -/

/-- The traversal of `CheckCrateVisitor`.  On a static or const item, a
trait associated-constant with a present default, or an impl associated
constant, it constructs a fresh recursion checker rooted at that
declaration's span (empty `idstack`), runs it on the declaration, and then
continues its own structural walk into the initializer expression; every
other declaration and expression is walked structurally.  Its state uses
only the session components (`diags` and the observers); `idstack` is reset
for each launched checker and unused otherwise. -/
def CheckCrateVisitor.visit (dm : DefMap) (am : AstMap) :
    Nat → VNode → VisitState → VisitState
  | 0, _, s => { s with fuelOut := true }
  | Nat.succ f, v, s =>
    match v with
    | .vitem (.mk id sp node) =>
      match node with
      | .itemStatic init =>
        let r := CheckItemRecursionVisitor.visit dm am sp f (.vitem (.mk id sp node))
          { s with idstack := [] }
        CheckCrateVisitor.visit dm am f (.vexpr init) r
      | .itemConst init =>
        let r := CheckItemRecursionVisitor.visit dm am sp f (.vitem (.mk id sp node))
          { s with idstack := [] }
        CheckCrateVisitor.visit dm am f (.vexpr init) r
      | .itemTrait tis => CheckCrateVisitor.visit dm am f (.vtraitItems tis) s
      | .itemImpl iis => CheckCrateVisitor.visit dm am f (.vimplItems iis) s
      | .itemOther its es =>
        CheckCrateVisitor.visit dm am f (.vexprs es)
          (CheckCrateVisitor.visit dm am f (.vitems its) s)
    | .vtraitItem (.mk id sp node) =>
      match node with
      | .constTraitItem (some e) =>
        let r := CheckItemRecursionVisitor.visit dm am sp f (.vtraitItem (.mk id sp node))
          { s with idstack := [] }
        CheckCrateVisitor.visit dm am f (.vexpr e) r
      | .constTraitItem none => s
      | .otherTraitItem es => CheckCrateVisitor.visit dm am f (.vexprs es) s
    | .vimplItem (.mk id sp node) =>
      match node with
      | .constImplItem init =>
        let r := CheckItemRecursionVisitor.visit dm am sp f (.vimplItem (.mk id sp node))
          { s with idstack := [] }
        CheckCrateVisitor.visit dm am f (.vexpr init) r
      | .otherImplItem es => CheckCrateVisitor.visit dm am f (.vexprs es) s
    | .vexpr (.path _ _ subs) => CheckCrateVisitor.visit dm am f (.vexprs subs) s
    | .vexpr (.comp _ _ subs its) =>
      CheckCrateVisitor.visit dm am f (.vexprs subs)
        (CheckCrateVisitor.visit dm am f (.vitems its) s)
    | .vitems [] => s
    | .vitems (i :: r) =>
      CheckCrateVisitor.visit dm am f (.vitems r)
        (CheckCrateVisitor.visit dm am f (.vitem i) s)
    | .vtraitItems [] => s
    | .vtraitItems (ti :: r) =>
      CheckCrateVisitor.visit dm am f (.vtraitItems r)
        (CheckCrateVisitor.visit dm am f (.vtraitItem ti) s)
    | .vimplItems [] => s
    | .vimplItems (ii :: r) =>
      CheckCrateVisitor.visit dm am f (.vimplItems r)
        (CheckCrateVisitor.visit dm am f (.vimplItem ii) s)
    | .vexprs [] => s
    | .vexprs (e :: r) =>
      CheckCrateVisitor.visit dm am f (.vexprs r)
        (CheckCrateVisitor.visit dm am f (.vexpr e) s)

/-- `Session::abort_if_errors`: stop compilation exactly when a diagnostic
has been recorded. -/
def abort_if_errors (diags : List Diagnostic) : Bool :=
  !diags.isEmpty

/-- `check_crate`: walk the whole crate (a list of top-level items) with the
program visitor, then make the single abort check.  Returns the final state
and whether compilation is aborted. -/
def check_crate (dm : DefMap) (am : AstMap) (fuel : Nat) (krate : List Item) :
    VisitState × Bool :=
  let s := CheckCrateVisitor.visit dm am fuel (.vitems krate) freshState
  (s, abort_if_errors s.diags)

/-! ## Concrete cycle programs (for the detection claims) -/

/-- A const `A` (node id 1) whose initializer is a path resolving back to
`A` itself.  The spans are arbitrary. -/
def selfRefItem (sA spath : Nat) : Item := .mk 1 sA (.itemConst (.path 100 spath []))

def selfRefDefMap : DefMap := [(100, .defConst ⟨0, 1⟩)]

def selfRefAstMap (sA spath : Nat) : AstMap := [(1, .nodeItem (selfRefItem sA spath))]

/-- Consts `A → B → C → A` (node ids 1, 2, 3): each initializer is a path
resolving to the next const in the chain, and `C`'s back to `A`. -/
def chainItemA (sa pa : Nat) : Item := .mk 1 sa (.itemConst (.path 101 pa []))

def chainItemB (sb pb : Nat) : Item := .mk 2 sb (.itemConst (.path 102 pb []))

def chainItemC (sc pc : Nat) : Item := .mk 3 sc (.itemConst (.path 103 pc []))

def chainDefMap : DefMap :=
  [(101, .defConst ⟨0, 2⟩), (102, .defConst ⟨0, 3⟩), (103, .defConst ⟨0, 1⟩)]

def chainAstMap (sa pa sb pb sc pc : Nat) : AstMap :=
  [(1, .nodeItem (chainItemA sa pa)), (2, .nodeItem (chainItemB sb pb)),
   (3, .nodeItem (chainItemC sc pc))]

/-! ## The claims -/

/-- Claim C1: whenever a recursion checker attempts to enter a declaration
whose identifier is already anywhere on the visit stack,
`with_item_id_pushed` appends exactly one `RecursiveConstant` diagnostic
anchored at the checker's root span (not at the declaration's own location),
leaves the stack unchanged (no push happens), and returns without running
the descent `f` — `f` is arbitrary and absent from the result. -/
theorem duplicate_entry_reports_once_at_root (root_span id : Nat)
    (f : VisitState → VisitState) (s : VisitState) (h : id ∈ s.idstack) :
    with_item_id_pushed root_span id f s =
      { s with diags := s.diags ++ [⟨.recursiveConstant, root_span, "recursive constant"⟩],
               consults := s.consults ++ [(id, s.idstack)] } := by
  simp [with_item_id_pushed, h]

theorem duplicate_entry_reports_once_at_root_witness :
    (5 : Nat) ∈ [5, 3] ∧
    with_item_id_pushed 7 5 id ⟨[5, 3], [], [], 0, false⟩ =
      ⟨[5, 3], [⟨.recursiveConstant, 7, "recursive constant"⟩], [(5, [5, 3])], 0, false⟩ :=
  ⟨by decide, duplicate_entry_reports_once_at_root 7 5 id ⟨[5, 3], [], [], 0, false⟩ (by decide)⟩

/-- Claim C2: a recursion checker launched with root `A` — on a direct
self-reference `A → A` as well as on the chain `A → B → C → A` — emits
exactly one `RecursiveConstant` diagnostic, anchored at `A`'s (the root's)
span, not one per cycle member. -/
theorem cycle_root_gets_exactly_one_diagnostic (sA spath sa pa sb pb sc pc : Nat) :
    (CheckItemRecursionVisitor.visit selfRefDefMap (selfRefAstMap sA spath) sA 10
        (.vitem (selfRefItem sA spath)) freshState).diags =
      [⟨.recursiveConstant, sA, "recursive constant"⟩] ∧
    (CheckItemRecursionVisitor.visit chainDefMap (chainAstMap sa pa sb pb sc pc) sa 12
        (.vitem (chainItemA sa pa)) freshState).diags =
      [⟨.recursiveConstant, sa, "recursive constant"⟩] :=
  ⟨rfl, rfl⟩

/-- Claim C5: a path expression resolving to a static/const/associated-const
whose definition is foreign (not of the local crate) is a leaf: the checker
enters no declaration and emits nothing for it, behaving exactly as the
plain structural walk of the path's sub-expressions, whatever the foreign
declaration's contents (the declaration table is arbitrary and its entry for
the target is never consulted); likewise when the resolution is local but
the declaration table yields a foreign-item node. -/
theorem foreign_references_are_leaves (dm : DefMap) (am : AstMap)
    (root_span f eid espan : Nat) (subs : List Expr) (s : VisitState)
    (did : DefId) (mutbl : Bool) (prov : Nat)
    (h : List.lookup eid dm = some (.defStatic did mutbl) ∨
         List.lookup eid dm = some (.defAssociatedConst did prov) ∨
         List.lookup eid dm = some (.defConst did)) :
    (is_local did = false →
      CheckItemRecursionVisitor.visit dm am root_span (f + 1) (.vexpr (.path eid espan subs)) s =
        CheckItemRecursionVisitor.visit dm am root_span f (.vexprs subs) s) ∧
    (is_local did = true → am.get did.node = .nodeForeignItem →
      CheckItemRecursionVisitor.visit dm am root_span (f + 1) (.vexpr (.path eid espan subs)) s =
        CheckItemRecursionVisitor.visit dm am root_span f (.vexprs subs) s) := by
  constructor
  · intro hl
    rcases h with h | h | h <;> simp [CheckItemRecursionVisitor.visit, h, hl]
  · intro hl hg
    rcases h with h | h | h <;> simp [CheckItemRecursionVisitor.visit, h, hl, hg]

theorem foreign_references_are_leaves_witness :
    is_local (⟨1, 4⟩ : DefId) = false ∧
    CheckItemRecursionVisitor.visit [(9, Def.defConst ⟨1, 4⟩)] [] 0 (3 + 1)
        (.vexpr (.path 9 2 [])) freshState =
      CheckItemRecursionVisitor.visit [(9, Def.defConst ⟨1, 4⟩)] [] 0 3 (.vexprs []) freshState :=
  ⟨by decide,
    (foreign_references_are_leaves [(9, Def.defConst ⟨1, 4⟩)] [] 0 3 9 2 [] freshState
      ⟨1, 4⟩ true 0 (.inr (.inr (by decide)))).1 (by decide)⟩

/-- Claim C6: a path expression resolving to a local
static/const/associated-const whose declaration-table node is neither a
plain item, nor a trait item, nor an impl item, nor a foreign item, makes
the checker report one `UnexpectedDeclarationKind` diagnostic at the
reference expression's own span (not the root's), naming the encountered
node, and return without walking that expression's children (the offending
branch stops; the checker's caller continues the rest of the traversal). -/
theorem unexpected_kind_reports_at_reference (dm : DefMap) (am : AstMap)
    (root_span f eid espan : Nat) (subs : List Expr) (s : VisitState)
    (did : DefId) (mutbl : Bool) (prov : Nat) (descr : String)
    (h : List.lookup eid dm = some (.defStatic did mutbl) ∨
         List.lookup eid dm = some (.defAssociatedConst did prov) ∨
         List.lookup eid dm = some (.defConst did))
    (hl : is_local did = true) (hg : am.get did.node = .nodeOther descr) :
    CheckItemRecursionVisitor.visit dm am root_span (f + 1) (.vexpr (.path eid espan subs)) s =
      { s with diags :=
          s.diags ++ [⟨.unexpectedDeclarationKind, espan, "expected item, found " ++ descr⟩] } := by
  rcases h with h | h | h <;> simp [CheckItemRecursionVisitor.visit, h, hl, hg]

theorem unexpected_kind_reports_at_reference_witness :
    CheckItemRecursionVisitor.visit [(9, Def.defConst ⟨0, 4⟩)] [(4, .nodeOther "local variable x")]
        0 (3 + 1) (.vexpr (.path 9 2 [])) freshState =
      { freshState with diags :=
          [⟨.unexpectedDeclarationKind, 2, "expected item, found " ++ "local variable x"⟩] } :=
  unexpected_kind_reports_at_reference [(9, Def.defConst ⟨0, 4⟩)]
    [(4, .nodeOther "local variable x")] 0 3 9 2 [] freshState ⟨0, 4⟩ true 0 "local variable x"
    (.inr (.inr (by decide))) (by decide) rfl

/-- Claim C10: a path expression whose identifier has no entry in the
resolution map, or whose resolution is not a static/const/associated-const
(e.g. a function or a variable), makes the checker emit nothing and enter no
declaration, while still walking the expression's sub-expressions
structurally — it behaves exactly as the plain structural walk of the
children, so constant references nested inside are still discovered. -/
theorem unresolved_paths_walk_children (dm : DefMap) (am : AstMap)
    (root_span f eid espan : Nat) (subs : List Expr) (s : VisitState)
    (h : List.lookup eid dm = none ∨ List.lookup eid dm = some .defOther) :
    CheckItemRecursionVisitor.visit dm am root_span (f + 1) (.vexpr (.path eid espan subs)) s =
      CheckItemRecursionVisitor.visit dm am root_span f (.vexprs subs) s := by
  rcases h with h | h <;> simp [CheckItemRecursionVisitor.visit, h]

theorem unresolved_paths_walk_children_witness :
    CheckItemRecursionVisitor.visit [] [] 0 (5 + 1) (.vexpr (.path 9 2 [])) freshState =
      CheckItemRecursionVisitor.visit [] [] 0 5 (.vexprs []) freshState :=
  unresolved_paths_walk_children [] [] 0 5 9 2 [] freshState (.inl (by decide))

/-! ## Structural facts about the recursion checker

`visit_idstack_eq`: a checker leaves the visit stack exactly as it found it
(every successful push is matched by the unconditional pop).
`visit_frame`: the session components of the state (diagnostics, and the
observers) are write-only accumulators — a run from any state equals the run
from a pristine state with the prior contents prepended, so recorded
diagnostics never influence the rest of the traversal. -/

theorem visit_idstack_eq (dm : DefMap) (am : AstMap) (rsp : Nat) :
    ∀ (f : Nat) (v : VNode) (s : VisitState),
      (CheckItemRecursionVisitor.visit dm am rsp f v s).idstack = s.idstack := by
  intro f
  induction f with
  | zero => intro v s; rfl
  | succ f ih =>
    intro v s
    rcases v with ⟨id, sp, node⟩ | ⟨id, sp, node⟩ | ⟨id, sp, node⟩ | e | l | l | l | l
    · cases node <;>
        simp [CheckItemRecursionVisitor.visit, with_item_id_pushed] <;> split <;> simp [ih]
    · rcases node with ⟨_ | e⟩ | es <;>
        simp [CheckItemRecursionVisitor.visit, with_item_id_pushed] <;> split <;> simp [ih]
    · cases node <;>
        simp [CheckItemRecursionVisitor.visit, with_item_id_pushed] <;> split <;> simp [ih]
    · rcases e with ⟨eid, espan, subs⟩ | ⟨eid, espan, subs, its⟩
      · simp only [CheckItemRecursionVisitor.visit]
        rcases h : List.lookup eid dm with _ | d
        · simp [ih]
        · rcases d with ⟨did, mutbl⟩ | did | ⟨did, prov⟩ | _ <;> simp only []
          · by_cases hl : is_local did <;> simp [hl, ih]
            cases am.get did.node <;> simp [ih]
          · by_cases hl : is_local did <;> simp [hl, ih]
            cases am.get did.node <;> simp [ih]
          · by_cases hl : is_local did <;> simp [hl, ih]
            cases am.get did.node <;> simp [ih]
          · simp [ih]
      · simp [CheckItemRecursionVisitor.visit, ih]
    · cases l <;> simp [CheckItemRecursionVisitor.visit, ih]
    · cases l <;> simp [CheckItemRecursionVisitor.visit, ih]
    · cases l <;> simp [CheckItemRecursionVisitor.visit, ih]
    · cases l <;> simp [CheckItemRecursionVisitor.visit, ih]

def pristineRun (dm : DefMap) (am : AstMap) (rsp : Nat) (f : Nat) (v : VNode)
    (st : List Nat) : VisitState :=
  CheckItemRecursionVisitor.visit dm am rsp f v ⟨st, [], [], 0, false⟩

def sessionMerge (d : List Diagnostic) (c : List (Nat × List Nat)) (m : Nat) (b : Bool)
    (r : VisitState) : VisitState :=
  ⟨r.idstack, d ++ r.diags, c ++ r.consults, max m r.maxDepth, b || r.fuelOut⟩

theorem pristineRun_idstack (dm : DefMap) (am : AstMap) (rsp f : Nat) (v : VNode)
    (st : List Nat) : (pristineRun dm am rsp f v st).idstack = st :=
  visit_idstack_eq dm am rsp f v _

set_option maxHeartbeats 1600000 in
set_option maxRecDepth 8000 in
theorem visit_frame (dm : DefMap) (am : AstMap) (rsp : Nat) :
    ∀ (f : Nat) (v : VNode) (s : VisitState),
      CheckItemRecursionVisitor.visit dm am rsp f v s =
        sessionMerge s.diags s.consults s.maxDepth s.fuelOut
          (pristineRun dm am rsp f v s.idstack) := by
  intro f
  induction f with
  | zero =>
    intro v s
    simp [CheckItemRecursionVisitor.visit, pristineRun, sessionMerge]
  | succ f ih =>
    intro v s
    rcases v with ⟨id, sp, node⟩ | ⟨id, sp, node⟩ | ⟨id, sp, node⟩ | e | l | l | l | l
    · cases node <;>
      · simp only [CheckItemRecursionVisitor.visit, with_item_id_pushed, pristineRun]
        by_cases hmem : id ∈ s.idstack <;>
          simp [hmem, ih, sessionMerge, pristineRun_idstack, List.append_assoc,
            Nat.max_assoc, Bool.or_assoc, Nat.zero_max]
    · rcases node with ⟨_ | e⟩ | es <;>
      · simp only [CheckItemRecursionVisitor.visit, with_item_id_pushed, pristineRun]
        by_cases hmem : id ∈ s.idstack <;>
          simp [hmem, ih, sessionMerge, pristineRun_idstack, List.append_assoc,
            Nat.max_assoc, Bool.or_assoc, Nat.zero_max]
    · cases node <;>
      · simp only [CheckItemRecursionVisitor.visit, with_item_id_pushed, pristineRun]
        by_cases hmem : id ∈ s.idstack <;>
          simp [hmem, ih, sessionMerge, pristineRun_idstack, List.append_assoc,
            Nat.max_assoc, Bool.or_assoc, Nat.zero_max]
    · rcases e with ⟨eid, espan, subs⟩ | ⟨eid, espan, subs, its⟩
      · simp only [CheckItemRecursionVisitor.visit, pristineRun]
        rcases h : List.lookup eid dm with _ | d'
        · simp [ih, sessionMerge, pristineRun_idstack, List.append_assoc,
            Nat.max_assoc, Bool.or_assoc, Nat.zero_max]
        · rcases d' with ⟨did, mutbl⟩ | did | ⟨did, prov⟩ | _
          · by_cases hl : is_local did
            · cases hg : am.get did.node <;>
                simp [hl, hg, ih, sessionMerge, pristineRun_idstack,
                  List.append_assoc, Nat.max_assoc, Bool.or_assoc, Nat.zero_max]
            · simp [hl, ih, sessionMerge, pristineRun_idstack,
                List.append_assoc, Nat.max_assoc, Bool.or_assoc, Nat.zero_max]
          · by_cases hl : is_local did
            · cases hg : am.get did.node <;>
                simp [hl, hg, ih, sessionMerge, pristineRun_idstack,
                  List.append_assoc, Nat.max_assoc, Bool.or_assoc, Nat.zero_max]
            · simp [hl, ih, sessionMerge, pristineRun_idstack,
                List.append_assoc, Nat.max_assoc, Bool.or_assoc, Nat.zero_max]
          · by_cases hl : is_local did
            · cases hg : am.get did.node <;>
                simp [hl, hg, ih, sessionMerge, pristineRun_idstack,
                  List.append_assoc, Nat.max_assoc, Bool.or_assoc, Nat.zero_max]
            · simp [hl, ih, sessionMerge, pristineRun_idstack,
                List.append_assoc, Nat.max_assoc, Bool.or_assoc, Nat.zero_max]
          · simp [ih, sessionMerge, pristineRun_idstack, List.append_assoc,
              Nat.max_assoc, Bool.or_assoc, Nat.zero_max]
      · simp only [pristineRun, CheckItemRecursionVisitor.visit]
        simp [ih, sessionMerge, pristineRun_idstack, List.append_assoc, Nat.max_assoc,
          Bool.or_assoc, Nat.zero_max]
    · cases l <;>
      · simp only [pristineRun, CheckItemRecursionVisitor.visit]
        simp [ih, sessionMerge, pristineRun_idstack, List.append_assoc, Nat.max_assoc,
          Bool.or_assoc, Nat.zero_max]
    · cases l <;>
      · simp only [pristineRun, CheckItemRecursionVisitor.visit]
        simp [ih, sessionMerge, pristineRun_idstack, List.append_assoc, Nat.max_assoc,
          Bool.or_assoc, Nat.zero_max]
    · cases l <;>
      · simp only [pristineRun, CheckItemRecursionVisitor.visit]
        simp [ih, sessionMerge, pristineRun_idstack, List.append_assoc, Nat.max_assoc,
          Bool.or_assoc, Nat.zero_max]
    · cases l <;>
      · simp only [pristineRun, CheckItemRecursionVisitor.visit]
        simp [ih, sessionMerge, pristineRun_idstack, List.append_assoc, Nat.max_assoc,
          Bool.or_assoc, Nat.zero_max]

/-! ## Structural facts about the program visitor -/

def cratePristineRun (dm : DefMap) (am : AstMap) (f : Nat) (v : VNode)
    (st : List Nat) : VisitState :=
  CheckCrateVisitor.visit dm am f v ⟨st, [], [], 0, false⟩

set_option maxHeartbeats 1600000 in
set_option maxRecDepth 8000 in
theorem crateVisit_frame (dm : DefMap) (am : AstMap) :
    ∀ (f : Nat) (v : VNode) (s : VisitState),
      CheckCrateVisitor.visit dm am f v s =
        sessionMerge s.diags s.consults s.maxDepth s.fuelOut
          (cratePristineRun dm am f v s.idstack) := by
  intro f
  induction f with
  | zero =>
    intro v s
    simp [CheckCrateVisitor.visit, cratePristineRun, sessionMerge]
  | succ f ih =>
    intro v s
    rcases v with ⟨id, sp, node⟩ | ⟨id, sp, node⟩ | ⟨id, sp, node⟩ | e | l | l | l | l
    · cases node <;>
      · simp only [cratePristineRun, CheckCrateVisitor.visit]
        simp [ih, visit_frame, sessionMerge, pristineRun_idstack, List.append_assoc,
          Nat.max_assoc, Bool.or_assoc, Nat.zero_max]
    · rcases node with ⟨_ | e⟩ | es <;>
      · simp only [cratePristineRun, CheckCrateVisitor.visit]
        simp [ih, visit_frame, sessionMerge, pristineRun_idstack, List.append_assoc,
          Nat.max_assoc, Bool.or_assoc, Nat.zero_max]
    · cases node <;>
      · simp only [cratePristineRun, CheckCrateVisitor.visit]
        simp [ih, visit_frame, sessionMerge, pristineRun_idstack, List.append_assoc,
          Nat.max_assoc, Bool.or_assoc, Nat.zero_max]
    · rcases e with ⟨eid, espan, subs⟩ | ⟨eid, espan, subs, its⟩ <;>
      · simp only [cratePristineRun, CheckCrateVisitor.visit]
        simp [ih, visit_frame, sessionMerge, pristineRun_idstack, List.append_assoc,
          Nat.max_assoc, Bool.or_assoc, Nat.zero_max]
    · cases l <;>
      · simp only [cratePristineRun, CheckCrateVisitor.visit]
        simp [ih, visit_frame, sessionMerge, pristineRun_idstack, List.append_assoc,
          Nat.max_assoc, Bool.or_assoc, Nat.zero_max]
    · cases l <;>
      · simp only [cratePristineRun, CheckCrateVisitor.visit]
        simp [ih, visit_frame, sessionMerge, pristineRun_idstack, List.append_assoc,
          Nat.max_assoc, Bool.or_assoc, Nat.zero_max]
    · cases l <;>
      · simp only [cratePristineRun, CheckCrateVisitor.visit]
        simp [ih, visit_frame, sessionMerge, pristineRun_idstack, List.append_assoc,
          Nat.max_assoc, Bool.or_assoc, Nat.zero_max]
    · cases l <;>
      · simp only [cratePristineRun, CheckCrateVisitor.visit]
        simp [ih, visit_frame, sessionMerge, pristineRun_idstack, List.append_assoc,
          Nat.max_assoc, Bool.or_assoc, Nat.zero_max]

theorem sessionMerge_diags (d : List Diagnostic) (c : List (Nat × List Nat)) (m : Nat)
    (b : Bool) (r : VisitState) : (sessionMerge d c m b r).diags = d ++ r.diags := rfl

theorem visit_diags (dm : DefMap) (am : AstMap) (rsp f : Nat) (v : VNode) (s : VisitState) :
    (CheckItemRecursionVisitor.visit dm am rsp f v s).diags =
      s.diags ++ (pristineRun dm am rsp f v s.idstack).diags := by
  rw [visit_frame]; rfl

inductive Root : Type where
  | ritem (it : Item)
  | rtraitItem (ti : TraitItem)
  | rimplItem (ii : ImplItem)

def Root.span : Root → Nat
  | .ritem it => it.span
  | .rtraitItem ti => ti.span
  | .rimplItem ii => ii.span

def Root.vnode : Root → VNode
  | .ritem it => .vitem it
  | .rtraitItem ti => .vtraitItem ti
  | .rimplItem ii => .vimplItem ii

def rootsAt : Nat → VNode → List (Nat × Root)
  | 0, _ => []
  | Nat.succ f, v =>
    match v with
    | .vitem (.mk id sp node) =>
      match node with
      | .itemStatic init =>
        (f, .ritem (.mk id sp (.itemStatic init))) :: rootsAt f (.vexpr init)
      | .itemConst init =>
        (f, .ritem (.mk id sp (.itemConst init))) :: rootsAt f (.vexpr init)
      | .itemTrait tis => rootsAt f (.vtraitItems tis)
      | .itemImpl iis => rootsAt f (.vimplItems iis)
      | .itemOther its es => rootsAt f (.vitems its) ++ rootsAt f (.vexprs es)
    | .vtraitItem (.mk id sp node) =>
      match node with
      | .constTraitItem (some e) =>
        (f, .rtraitItem (.mk id sp (.constTraitItem (some e)))) :: rootsAt f (.vexpr e)
      | .constTraitItem none => []
      | .otherTraitItem es => rootsAt f (.vexprs es)
    | .vimplItem (.mk id sp node) =>
      match node with
      | .constImplItem init =>
        (f, .rimplItem (.mk id sp (.constImplItem init))) :: rootsAt f (.vexpr init)
      | .otherImplItem es => rootsAt f (.vexprs es)
    | .vexpr (.path _ _ subs) => rootsAt f (.vexprs subs)
    | .vexpr (.comp _ _ subs its) => rootsAt f (.vitems its) ++ rootsAt f (.vexprs subs)
    | .vitems [] => []
    | .vitems (i :: r) => rootsAt f (.vitem i) ++ rootsAt f (.vitems r)
    | .vtraitItems [] => []
    | .vtraitItems (ti :: r) => rootsAt f (.vtraitItem ti) ++ rootsAt f (.vtraitItems r)
    | .vimplItems [] => []
    | .vimplItems (ii :: r) => rootsAt f (.vimplItem ii) ++ rootsAt f (.vimplItems r)
    | .vexprs [] => []
    | .vexprs (e :: r) => rootsAt f (.vexpr e) ++ rootsAt f (.vexprs r)

def rootRunDiags (dm : DefMap) (am : AstMap) (p : Nat × Root) : List Diagnostic :=
  (CheckItemRecursionVisitor.visit dm am p.2.span p.1 p.2.vnode freshState).diags

set_option maxHeartbeats 1600000 in
set_option maxRecDepth 8000 in
theorem crateVisit_diags_decompose (dm : DefMap) (am : AstMap) :
    ∀ (f : Nat) (v : VNode) (s : VisitState),
      (CheckCrateVisitor.visit dm am f v s).diags =
        s.diags ++ ((rootsAt f v).map (rootRunDiags dm am)).flatten := by
  intro f
  induction f with
  | zero => intro v s; simp [CheckCrateVisitor.visit, rootsAt]
  | succ f ih =>
    intro v s
    rcases v with ⟨id, sp, node⟩ | ⟨id, sp, node⟩ | ⟨id, sp, node⟩ | e | l | l | l | l
    · cases node <;>
        simp [CheckCrateVisitor.visit, rootsAt, ih, visit_diags, rootRunDiags,
          freshState, Root.span, Root.vnode, Item.span, TraitItem.span, ImplItem.span]
    · rcases node with ⟨_ | e⟩ | es <;>
        simp [CheckCrateVisitor.visit, rootsAt, ih, visit_diags, rootRunDiags,
          freshState, Root.span, Root.vnode, Item.span, TraitItem.span, ImplItem.span]
    · cases node <;>
        simp [CheckCrateVisitor.visit, rootsAt, ih, visit_diags, rootRunDiags,
          freshState, Root.span, Root.vnode, Item.span, TraitItem.span, ImplItem.span]
    · rcases e with ⟨eid, espan, subs⟩ | ⟨eid, espan, subs, its⟩ <;>
        simp [CheckCrateVisitor.visit, rootsAt, ih, visit_diags, rootRunDiags,
          freshState, Root.span, Root.vnode, Item.span, TraitItem.span, ImplItem.span]
    · cases l <;>
        simp [CheckCrateVisitor.visit, rootsAt, ih, visit_diags, rootRunDiags,
          freshState, Root.span, Root.vnode, Item.span, TraitItem.span, ImplItem.span]
    · cases l <;>
        simp [CheckCrateVisitor.visit, rootsAt, ih, visit_diags, rootRunDiags,
          freshState, Root.span, Root.vnode, Item.span, TraitItem.span, ImplItem.span]
    · cases l <;>
        simp [CheckCrateVisitor.visit, rootsAt, ih, visit_diags, rootRunDiags,
          freshState, Root.span, Root.vnode, Item.span, TraitItem.span, ImplItem.span]
    · cases l <;>
        simp [CheckCrateVisitor.visit, rootsAt, ih, visit_diags, rootRunDiags,
          freshState, Root.span, Root.vnode, Item.span, TraitItem.span, ImplItem.span]

/-- Claim C7: every diagnostic of the whole pass arises from the per-root
recursion checks, one fresh checker per constant-bearing declaration
occurrence: the final diagnostic list is exactly the concatenation, in walk
order, over the roots the program visitor launches (`rootsAt` enumerates the
static items, const items, trait associated-constant defaults with a present
default expression, and impl associated constants occurring anywhere in the
tree — including ones nested inside initializers, which the visitor finds by
continuing its structural walk after each check — each occurrence exactly
once), of the diagnostics of one checker run started from `freshState`,
whose visit stack is empty and is shared with no other root's run
(`rootRunDiags` runs each root in isolation). -/
theorem one_fresh_checker_per_root (dm : DefMap) (am : AstMap) (fuel : Nat)
    (krate : List Item) :
    (check_crate dm am fuel krate).1.diags =
      ((rootsAt fuel (.vitems krate)).map (rootRunDiags dm am)).flatten := by
  simp [check_crate, crateVisit_diags_decompose, freshState]

/-- Claim C9: no diagnostic aborts the traversal — the session components of
the state are pure accumulators, so a run from any state (whatever
diagnostics it already recorded) is the pristine run with the prior contents
prepended, and the walk itself always runs to completion; the one abort
check happens after the whole walk, inside `check_crate`, and compilation is
aborted exactly when the recorded diagnostic list is non-empty. -/
theorem abort_iff_diagnostics_after_walk :
    (∀ (dm : DefMap) (am : AstMap) (fuel : Nat) (krate : List Item),
      (check_crate dm am fuel krate).2 = true ↔ (check_crate dm am fuel krate).1.diags ≠ []) ∧
    (∀ (dm : DefMap) (am : AstMap) (f : Nat) (v : VNode) (s : VisitState),
      CheckCrateVisitor.visit dm am f v s =
        sessionMerge s.diags s.consults s.maxDepth s.fuelOut
          (cratePristineRun dm am f v s.idstack)) := by
  constructor
  · intro dm am fuel krate
    simp [check_crate, abort_if_errors]
  · exact crateVisit_frame

/-! ## The stack discipline

Every stack the checker ever consults is duplicate-free: the stack starts
empty, a push only happens after the membership test rejects duplicates, and
the pop restores the previous stack. -/

def ConsultsOK (s : VisitState) : Prop := ∀ p ∈ s.consults, List.Nodup p.2

theorem with_item_id_pushed_consults (rsp id : Nat) (g : VisitState → VisitState)
    (s : VisitState) (h1 : s.idstack.Nodup) (h2 : ConsultsOK s)
    (hg : ∀ s', s'.idstack.Nodup → ConsultsOK s' → ConsultsOK (g s')) :
    ConsultsOK (with_item_id_pushed rsp id g s) := by
  have hstep : ConsultsOK { s with consults := s.consults ++ [(id, s.idstack)] } := by
    intro p hp
    rcases List.mem_append.1 hp with h | h
    · exact h2 p h
    · simp at h
      subst h
      exact h1
  by_cases hmem : id ∈ s.idstack
  · simp only [with_item_id_pushed]
    rw [if_pos (by simpa using hmem)]
    intro p hp
    exact hstep p hp
  · simp only [with_item_id_pushed]
    rw [if_neg (by simpa using hmem)]
    intro p hp
    exact hg { s with idstack := id :: s.idstack,
                      consults := s.consults ++ [(id, s.idstack)],
                      maxDepth := max s.maxDepth (s.idstack.length + 1) }
      (List.nodup_cons.2 ⟨hmem, h1⟩) (fun q hq => hstep q hq) p hp

theorem visit_consults_nodup (dm : DefMap) (am : AstMap) (rsp : Nat) :
    ∀ (f : Nat) (v : VNode) (s : VisitState), s.idstack.Nodup → ConsultsOK s →
      ConsultsOK (CheckItemRecursionVisitor.visit dm am rsp f v s) := by
  intro f
  induction f with
  | zero =>
    intro v s h1 h2 p hp
    exact h2 p hp
  | succ f ih =>
    intro v s h1 h2
    have hseq : ∀ (v1 v2 : VNode) (s' : VisitState), s'.idstack.Nodup → ConsultsOK s' →
        ConsultsOK (CheckItemRecursionVisitor.visit dm am rsp f v2
          (CheckItemRecursionVisitor.visit dm am rsp f v1 s')) := by
      intro v1 v2 s' hn hc
      exact ih v2 _ (by rw [visit_idstack_eq]; exact hn) (ih v1 s' hn hc)
    rcases v with ⟨id, sp, node⟩ | ⟨id, sp, node⟩ | ⟨id, sp, node⟩ | e | l | l | l | l
    · cases node <;>
        exact with_item_id_pushed_consults rsp id _ s h1 h2 (fun s' hn hc => by
          first
            | exact ih _ s' hn hc
            | exact hseq _ _ s' hn hc)
    · rcases node with ⟨_ | e⟩ | es
      · exact with_item_id_pushed_consults rsp id _ s h1 h2 (fun s' hn hc => hc)
      · exact with_item_id_pushed_consults rsp id _ s h1 h2 (fun s' hn hc => ih _ s' hn hc)
      · exact with_item_id_pushed_consults rsp id _ s h1 h2 (fun s' hn hc => ih _ s' hn hc)
    · cases node <;>
        exact with_item_id_pushed_consults rsp id _ s h1 h2 (fun s' hn hc => ih _ s' hn hc)
    · rcases e with ⟨eid, espan, subs⟩ | ⟨eid, espan, subs, its⟩
      · simp only [CheckItemRecursionVisitor.visit]
        rcases List.lookup eid dm with _ | d'
        · exact ih _ s h1 h2
        · rcases d' with ⟨did, mutbl⟩ | did | ⟨did, prov⟩ | _
          · by_cases hl : is_local did
            · simp only [hl, if_true]
              cases am.get did.node
              · exact hseq _ _ s h1 h2
              · exact hseq _ _ s h1 h2
              · exact hseq _ _ s h1 h2
              · exact ih _ s h1 h2
              · exact h2
            · simp only [hl]
              simp only [Bool.false_eq_true, if_false]
              exact ih _ s h1 h2
          · by_cases hl : is_local did
            · simp only [hl, if_true]
              cases am.get did.node
              · exact hseq _ _ s h1 h2
              · exact hseq _ _ s h1 h2
              · exact hseq _ _ s h1 h2
              · exact ih _ s h1 h2
              · exact h2
            · simp only [hl]
              simp only [Bool.false_eq_true, if_false]
              exact ih _ s h1 h2
          · by_cases hl : is_local did
            · simp only [hl, if_true]
              cases am.get did.node
              · exact hseq _ _ s h1 h2
              · exact hseq _ _ s h1 h2
              · exact hseq _ _ s h1 h2
              · exact ih _ s h1 h2
              · exact h2
            · simp only [hl]
              simp only [Bool.false_eq_true, if_false]
              exact ih _ s h1 h2
          · exact ih _ s h1 h2
      · exact hseq _ _ s h1 h2
    · cases l
      · exact h2
      · exact hseq _ _ s h1 h2
    · cases l
      · exact h2
      · exact hseq _ _ s h1 h2
    · cases l
      · exact h2
      · exact hseq _ _ s h1 h2
    · cases l
      · exact h2
      · exact hseq _ _ s h1 h2

/-- Claim C4: the visit-stack invariant.  (1) A duplicate push attempt is
rejected: entering an identifier already on the stack leaves the stack
untouched, records the consultation, emits the diagnostic and never runs the
descent.  (2) Every run of the checker restores the stack it was given —
each successful push is matched by the unconditional pop once the walk of
the declaration completes.  (3) Starting from a duplicate-free stack (and a
trace of duplicate-free consultations), every stack recorded at a
consultation during the whole traversal is duplicate-free: no identifier
ever appears twice in the stack at any time the stack is consulted. -/
theorem visit_stack_invariant :
    (∀ (root_span id : Nat) (g : VisitState → VisitState) (s : VisitState), id ∈ s.idstack →
      with_item_id_pushed root_span id g s =
        { s with diags := s.diags ++ [⟨.recursiveConstant, root_span, "recursive constant"⟩],
                 consults := s.consults ++ [(id, s.idstack)] }) ∧
    (∀ (dm : DefMap) (am : AstMap) (rsp f : Nat) (v : VNode) (s : VisitState),
      (CheckItemRecursionVisitor.visit dm am rsp f v s).idstack = s.idstack) ∧
    (∀ (dm : DefMap) (am : AstMap) (rsp f : Nat) (v : VNode) (s : VisitState),
      s.idstack.Nodup → ConsultsOK s →
      ConsultsOK (CheckItemRecursionVisitor.visit dm am rsp f v s)) := by
  refine ⟨?_, fun dm am rsp f v s => visit_idstack_eq dm am rsp f v s,
    fun dm am rsp f v s h1 h2 => visit_consults_nodup dm am rsp f v s h1 h2⟩
  intro root_span id g s h
  simp [with_item_id_pushed, h]

theorem visit_stack_invariant_witness :
    with_item_id_pushed 3 4 id ⟨[4], [], [], 0, false⟩ =
      ⟨[4], [⟨.recursiveConstant, 3, "recursive constant"⟩], [(4, [4])], 0, false⟩ ∧
    (CheckItemRecursionVisitor.visit selfRefDefMap (selfRefAstMap 0 1) 0 10
        (.vitem (selfRefItem 0 1)) freshState).idstack = [] ∧
    ((CheckItemRecursionVisitor.visit selfRefDefMap (selfRefAstMap 0 1) 0 10
        (.vitem (selfRefItem 0 1)) freshState).consults.all (fun p => decide p.2.Nodup)) =
      true := by
  refine ⟨visit_stack_invariant.1 3 4 id ⟨[4], [], [], 0, false⟩ (by decide),
    visit_stack_invariant.2.1 selfRefDefMap (selfRefAstMap 0 1) 0 10
      (.vitem (selfRefItem 0 1)) freshState, ?_⟩
  apply List.all_eq_true.mpr
  intro p hp
  exact decide_eq_true
    (visit_stack_invariant.2.2 selfRefDefMap (selfRefAstMap 0 1) 0 10
      (.vitem (selfRefItem 0 1)) freshState (by decide) (fun q hq => by simp [freshState] at hq)
      p hp)

/-! ## The constant-reference graph

To state the no-false-positives property we read the reference graph off the
program syntactically.  A `Decl` is any declaration node (item, trait item
or impl item); `vsuccs` lists the identifiers of the declarations a node's
walk enters directly (structurally nested declarations, and the targets of
resolved local constant references); `declSuccs` does the same for the
interior of one declaration; `declTable` collects every declaration of the
crate and of the declaration table; `refEdge x y` says the program has a
declaration with identifier `x` whose walk directly enters a declaration
with identifier `y`.  A `RecursiveConstant` diagnostic can only arise from a
cycle in this relation: the visit stack always forms a `refEdge`-chain from
the root to the current declaration. -/

inductive Decl : Type where
  | item (it : Item)
  | traitItem (ti : TraitItem)
  | implItem (ii : ImplItem)

def Decl.id : Decl → Nat
  | .item it => it.id
  | .traitItem ti => ti.id
  | .implItem ii => ii.id

def pathEnterId (dm : DefMap) (am : AstMap) (eid : Nat) : List Nat :=
  match List.lookup eid dm with
  | some (.defStatic did _) | some (.defAssociatedConst did _) | some (.defConst did) =>
    if is_local did then
      match am.get did.node with
      | .nodeItem it => [it.id]
      | .nodeTraitItem ti => [ti.id]
      | .nodeImplItem ii => [ii.id]
      | .nodeForeignItem => []
      | .nodeOther _ => []
    else []
  | _ => []

def vsuccs (dm : DefMap) (am : AstMap) : VNode → List Nat
  | .vitem it => [it.id]
  | .vtraitItem ti => [ti.id]
  | .vimplItem ii => [ii.id]
  | .vexpr (.path eid _ subs) => pathEnterId dm am eid ++ vsuccs dm am (.vexprs subs)
  | .vexpr (.comp _ _ subs its) => vsuccs dm am (.vitems its) ++ vsuccs dm am (.vexprs subs)
  | .vitems [] => []
  | .vitems (i :: r) => vsuccs dm am (.vitem i) ++ vsuccs dm am (.vitems r)
  | .vtraitItems [] => []
  | .vtraitItems (ti :: r) => vsuccs dm am (.vtraitItem ti) ++ vsuccs dm am (.vtraitItems r)
  | .vimplItems [] => []
  | .vimplItems (ii :: r) => vsuccs dm am (.vimplItem ii) ++ vsuccs dm am (.vimplItems r)
  | .vexprs [] => []
  | .vexprs (e :: r) => vsuccs dm am (.vexpr e) ++ vsuccs dm am (.vexprs r)

def declSuccs (dm : DefMap) (am : AstMap) : Decl → List Nat
  | .item (.mk _ _ (.itemStatic init)) => vsuccs dm am (.vexpr init)
  | .item (.mk _ _ (.itemConst init)) => vsuccs dm am (.vexpr init)
  | .item (.mk _ _ (.itemTrait tis)) => vsuccs dm am (.vtraitItems tis)
  | .item (.mk _ _ (.itemImpl iis)) => vsuccs dm am (.vimplItems iis)
  | .item (.mk _ _ (.itemOther its es)) =>
    vsuccs dm am (.vitems its) ++ vsuccs dm am (.vexprs es)
  | .traitItem (.mk _ _ (.constTraitItem (some e))) => vsuccs dm am (.vexpr e)
  | .traitItem (.mk _ _ (.constTraitItem none)) => []
  | .traitItem (.mk _ _ (.otherTraitItem es)) => vsuccs dm am (.vexprs es)
  | .implItem (.mk _ _ (.constImplItem init)) => vsuccs dm am (.vexpr init)
  | .implItem (.mk _ _ (.otherImplItem es)) => vsuccs dm am (.vexprs es)

def declsV : VNode → List Decl
  | .vitem (.mk id sp node) =>
    .item (.mk id sp node) ::
      (match node with
       | .itemStatic init => declsV (.vexpr init)
       | .itemConst init => declsV (.vexpr init)
       | .itemTrait tis => declsV (.vtraitItems tis)
       | .itemImpl iis => declsV (.vimplItems iis)
       | .itemOther its es => declsV (.vitems its) ++ declsV (.vexprs es))
  | .vtraitItem (.mk id sp node) =>
    .traitItem (.mk id sp node) ::
      (match node with
       | .constTraitItem (some e) => declsV (.vexpr e)
       | .constTraitItem none => []
       | .otherTraitItem es => declsV (.vexprs es))
  | .vimplItem (.mk id sp node) =>
    .implItem (.mk id sp node) ::
      (match node with
       | .constImplItem init => declsV (.vexpr init)
       | .otherImplItem es => declsV (.vexprs es))
  | .vexpr (.path _ _ subs) => declsV (.vexprs subs)
  | .vexpr (.comp _ _ subs its) => declsV (.vitems its) ++ declsV (.vexprs subs)
  | .vitems [] => []
  | .vitems (i :: r) => declsV (.vitem i) ++ declsV (.vitems r)
  | .vtraitItems [] => []
  | .vtraitItems (ti :: r) => declsV (.vtraitItem ti) ++ declsV (.vtraitItems r)
  | .vimplItems [] => []
  | .vimplItems (ii :: r) => declsV (.vimplItem ii) ++ declsV (.vimplItems r)
  | .vexprs [] => []
  | .vexprs (e :: r) => declsV (.vexpr e) ++ declsV (.vexprs r)

def declsOfAstNode : AstNode → List Decl
  | .nodeItem it => declsV (.vitem it)
  | .nodeTraitItem ti => declsV (.vtraitItem ti)
  | .nodeImplItem ii => declsV (.vimplItem ii)
  | .nodeForeignItem => []
  | .nodeOther _ => []

def declTable (am : AstMap) (krate : List Item) : List Decl :=
  declsV (.vitems krate) ++ (am.map (fun p => declsOfAstNode p.2)).flatten

def refEdge (dm : DefMap) (am : AstMap) (krate : List Item) (x y : Nat) : Prop :=
  ∃ d ∈ declTable am krate, d.id = x ∧ y ∈ declSuccs dm am d

-- diamond: A(1) -> B(2), C(3); B -> D(4), C -> D(4)
def dItemA : Item := .mk 1 10 (.itemConst (.comp 90 91 [.path 101 92 [], .path 102 93 []] []))
def dItemB : Item := .mk 2 20 (.itemConst (.path 103 21 []))
def dItemC : Item := .mk 3 30 (.itemConst (.path 104 31 []))
def dItemD : Item := .mk 4 40 (.itemConst (.comp 95 96 [] []))
def dDm : DefMap :=
  [(101, .defConst ⟨0, 2⟩), (102, .defConst ⟨0, 3⟩), (103, .defConst ⟨0, 4⟩),
   (104, .defConst ⟨0, 4⟩)]
def dAm : AstMap :=
  [(2, .nodeItem dItemB), (3, .nodeItem dItemC), (4, .nodeItem dItemD)]
def dKrate : List Item := [dItemA, dItemB, dItemC, dItemD]

theorem lookup_mem {α β : Type} [BEq α] [LawfulBEq α] :
    ∀ (l : List (α × β)) (k : α) (v : β), List.lookup k l = some v → (k, v) ∈ l := by
  intro l
  induction l with
  | nil => intro k v h; simp [List.lookup] at h
  | cons p t ih =>
    intro k v h
    rcases p with ⟨a, b⟩
    by_cases hk : k == a
    · simp [List.lookup, hk] at h
      subst h
      simp [(by simpa using hk : k = a)]
    · simp [List.lookup, hk] at h
      exact List.mem_cons_of_mem _ (ih k v h)

theorem lookup_of_get (am : AstMap) (n : Nat) (x : AstNode)
    (h : am.get n = x) (hx : ∀ str, x ≠ .nodeOther str) : List.lookup n am = some x := by
  rcases hl : List.lookup n am with _ | y
  · rw [AstMap.get, hl] at h
    simp at h
    exact absurd h.symm (hx "unknown node")
  · rw [AstMap.get, hl] at h
    simp at h
    rw [h]

theorem chain_reaches_head {R : Nat → Nat → Prop} :
    ∀ (st : List Nat) (h : Nat), List.Chain' (fun a b => R b a) st → st.head? = some h →
      ∀ id ∈ st, id = h ∨ Relation.TransGen R id h := by
  intro st
  induction st with
  | nil => intro h _ _ id hid; simp at hid
  | cons a rest ih =>
    intro h hch hh id hid
    have ha : a = h := by simpa using hh
    subst ha
    rcases List.mem_cons.1 hid with rfl | hid'
    · exact Or.inl rfl
    · rcases List.chain'_cons'.1 hch with ⟨hstep, hrest⟩
      rcases rest with _ | ⟨b, t⟩
      · simp at hid'
      · have hRba : R b a := hstep b rfl
        rcases ih b hrest rfl id hid' with rfl | htr
        · exact Or.inr (Relation.TransGen.single hRba)
        · exact Or.inr (htr.tail hRba)

theorem cycle_of_mem_stack {R : Nat → Nat → Prop} (st : List Nat) (h id : Nat)
    (hch : List.Chain' (fun a b => R b a) st) (hh : st.head? = some h) (hR : R h id)
    (hmem : id ∈ st) : Relation.TransGen R id id := by
  rcases chain_reaches_head st h hch hh id hmem with rfl | htr
  · exact Relation.TransGen.single hR
  · exact htr.tail hR

theorem vsuccs_vitems_cons (dm : DefMap) (am : AstMap) (i : Item) (r : List Item) :
    vsuccs dm am (.vitems (i :: r)) = vsuccs dm am (.vitem i) ++ vsuccs dm am (.vitems r) := by
  simp [vsuccs]

theorem vsuccs_vtraitItems_cons (dm : DefMap) (am : AstMap) (i : TraitItem)
    (r : List TraitItem) :
    vsuccs dm am (.vtraitItems (i :: r)) =
      vsuccs dm am (.vtraitItem i) ++ vsuccs dm am (.vtraitItems r) := by
  simp [vsuccs]

theorem vsuccs_vimplItems_cons (dm : DefMap) (am : AstMap) (i : ImplItem) (r : List ImplItem) :
    vsuccs dm am (.vimplItems (i :: r)) =
      vsuccs dm am (.vimplItem i) ++ vsuccs dm am (.vimplItems r) := by
  simp [vsuccs]

theorem vsuccs_vexprs_cons (dm : DefMap) (am : AstMap) (i : Expr) (r : List Expr) :
    vsuccs dm am (.vexprs (i :: r)) = vsuccs dm am (.vexpr i) ++ vsuccs dm am (.vexprs r) := by
  simp [vsuccs]

def DiagsOK (l : List Diagnostic) : Prop := ∀ d ∈ l, d.kind ≠ DiagKind.recursiveConstant

set_option maxHeartbeats 1600000 in
theorem visit_no_rc (dm : DefMap) (am : AstMap) (krate : List Item) (rsp : Nat)
    (hacyc : ∀ x, ¬ Relation.TransGen (refEdge dm am krate) x x) :
    ∀ (f : Nat) (v : VNode) (s : VisitState),
      List.Chain' (fun a b => refEdge dm am krate b a) s.idstack →
      (∀ h, s.idstack.head? = some h → ∀ y ∈ vsuccs dm am v, refEdge dm am krate h y) →
      (∀ d ∈ declsV v, d ∈ declTable am krate) →
      DiagsOK s.diags →
      DiagsOK (CheckItemRecursionVisitor.visit dm am rsp f v s).diags := by
  intro f
  induction f with
  | zero => intro v s _ _ _ hdg; exact hdg
  | succ f ih =>
    intro v s hch hlink hdecls hdg
    have hseq : ∀ (v1 v2 : VNode) (s' : VisitState),
        List.Chain' (fun a b => refEdge dm am krate b a) s'.idstack →
        (∀ h, s'.idstack.head? = some h → ∀ y ∈ vsuccs dm am v1, refEdge dm am krate h y) →
        (∀ h, s'.idstack.head? = some h → ∀ y ∈ vsuccs dm am v2, refEdge dm am krate h y) →
        (∀ d ∈ declsV v1, d ∈ declTable am krate) →
        (∀ d ∈ declsV v2, d ∈ declTable am krate) →
        DiagsOK s'.diags →
        DiagsOK (CheckItemRecursionVisitor.visit dm am rsp f v2
          (CheckItemRecursionVisitor.visit dm am rsp f v1 s')).diags := by
      intro v1 v2 s' hch' hl1 hl2 hd1 hd2 hdg'
      refine ih v2 _ ?_ ?_ hd2 (ih v1 s' hch' hl1 hd1 hdg')
      · rw [visit_idstack_eq]; exact hch'
      · rw [visit_idstack_eq]; exact hl2
    rcases v with ⟨id, sp, node⟩ | ⟨id, sp, node⟩ | ⟨id, sp, node⟩ | e | l | l | l | l
    · -- visit_item
      have hd0 : Decl.item (.mk id sp node) ∈ declTable am krate :=
        hdecls _ (by cases node <;> simp [declsV])
      have hint : ∀ y ∈ declSuccs dm am (Decl.item (.mk id sp node)),
          refEdge dm am krate id y :=
        fun y hy => ⟨_, hd0, by simp [Decl.id, Item.id], hy⟩
      have hdup : id ∈ s.idstack → False := by
        intro hmem
        rcases hst : s.idstack with _ | ⟨a, t⟩
        · rw [hst] at hmem; simp at hmem
        · have hh : s.idstack.head? = some a := by rw [hst]; rfl
          have hedge : refEdge dm am krate a id :=
            hlink a hh id (by simp [vsuccs, Item.id])
          exact hacyc id (cycle_of_mem_stack s.idstack a id hch hh hedge hmem)
      have hchain' : List.Chain' (fun a b => refEdge dm am krate b a) (id :: s.idstack) :=
        List.chain'_cons'.2 ⟨fun y hy => hlink y hy id (by simp [vsuccs, Item.id]), hch⟩
      cases node with
      | itemStatic init =>
        simp only [CheckItemRecursionVisitor.visit, with_item_id_pushed]
        split
        · rename_i hcond
          exact (hdup (by simpa using hcond)).elim
        · exact ih (.vexpr init)
            { s with idstack := id :: s.idstack,
                     consults := s.consults ++ [(id, s.idstack)],
                     maxDepth := max s.maxDepth (s.idstack.length + 1) }
            hchain'
            (fun h hh y hy => by
              obtain rfl : id = h := by simpa using hh
              exact hint y hy)
            (fun d hd => hdecls d (by simp [declsV]; exact Or.inr hd))
            hdg
      | itemConst init =>
        simp only [CheckItemRecursionVisitor.visit, with_item_id_pushed]
        split
        · rename_i hcond
          exact (hdup (by simpa using hcond)).elim
        · exact ih (.vexpr init)
            { s with idstack := id :: s.idstack,
                     consults := s.consults ++ [(id, s.idstack)],
                     maxDepth := max s.maxDepth (s.idstack.length + 1) }
            hchain'
            (fun h hh y hy => by
              obtain rfl : id = h := by simpa using hh
              exact hint y hy)
            (fun d hd => hdecls d (by simp [declsV]; exact Or.inr hd))
            hdg
      | itemTrait tis =>
        simp only [CheckItemRecursionVisitor.visit, with_item_id_pushed]
        split
        · rename_i hcond
          exact (hdup (by simpa using hcond)).elim
        · exact ih (.vtraitItems tis)
            { s with idstack := id :: s.idstack,
                     consults := s.consults ++ [(id, s.idstack)],
                     maxDepth := max s.maxDepth (s.idstack.length + 1) }
            hchain'
            (fun h hh y hy => by
              obtain rfl : id = h := by simpa using hh
              exact hint y hy)
            (fun d hd => hdecls d (by simp [declsV]; exact Or.inr hd))
            hdg
      | itemImpl iis =>
        simp only [CheckItemRecursionVisitor.visit, with_item_id_pushed]
        split
        · rename_i hcond
          exact (hdup (by simpa using hcond)).elim
        · exact ih (.vimplItems iis)
            { s with idstack := id :: s.idstack,
                     consults := s.consults ++ [(id, s.idstack)],
                     maxDepth := max s.maxDepth (s.idstack.length + 1) }
            hchain'
            (fun h hh y hy => by
              obtain rfl : id = h := by simpa using hh
              exact hint y hy)
            (fun d hd => hdecls d (by simp [declsV]; exact Or.inr hd))
            hdg
      | itemOther its es =>
        simp only [CheckItemRecursionVisitor.visit, with_item_id_pushed]
        split
        · rename_i hcond
          exact (hdup (by simpa using hcond)).elim
        · exact hseq (.vitems its) (.vexprs es)
            { s with idstack := id :: s.idstack,
                     consults := s.consults ++ [(id, s.idstack)],
                     maxDepth := max s.maxDepth (s.idstack.length + 1) }
            hchain'
            (fun h hh y hy => by
              obtain rfl : id = h := by simpa using hh
              exact hint y (List.mem_append.2 (Or.inl hy)))
            (fun h hh y hy => by
              obtain rfl : id = h := by simpa using hh
              exact hint y (List.mem_append.2 (Or.inr hy)))
            (fun d hd => hdecls d (by simp [declsV]; exact Or.inr (Or.inl hd)))
            (fun d hd => hdecls d (by simp [declsV]; exact Or.inr (Or.inr hd)))
            hdg
    · -- visit_trait_item
      have hd0 : Decl.traitItem (.mk id sp node) ∈ declTable am krate :=
        hdecls _ (by rcases node with ⟨_ | _⟩ | _ <;> simp [declsV])
      have hint : ∀ y ∈ declSuccs dm am (Decl.traitItem (.mk id sp node)),
          refEdge dm am krate id y :=
        fun y hy => ⟨_, hd0, by simp [Decl.id, TraitItem.id], hy⟩
      have hdup : id ∈ s.idstack → False := by
        intro hmem
        rcases hst : s.idstack with _ | ⟨a, t⟩
        · rw [hst] at hmem; simp at hmem
        · have hh : s.idstack.head? = some a := by rw [hst]; rfl
          have hedge : refEdge dm am krate a id :=
            hlink a hh id (by simp [vsuccs, TraitItem.id])
          exact hacyc id (cycle_of_mem_stack s.idstack a id hch hh hedge hmem)
      have hchain' : List.Chain' (fun a b => refEdge dm am krate b a) (id :: s.idstack) :=
        List.chain'_cons'.2 ⟨fun y hy => hlink y hy id (by simp [vsuccs, TraitItem.id]), hch⟩
      rcases node with ⟨_ | e⟩ | es
      · -- const default absent
        simp only [CheckItemRecursionVisitor.visit, with_item_id_pushed]
        split
        · rename_i hcond
          exact (hdup (by simpa using hcond)).elim
        · exact hdg
      · -- const default present
        simp only [CheckItemRecursionVisitor.visit, with_item_id_pushed]
        split
        · rename_i hcond
          exact (hdup (by simpa using hcond)).elim
        · exact ih (.vexpr e)
            { s with idstack := id :: s.idstack,
                     consults := s.consults ++ [(id, s.idstack)],
                     maxDepth := max s.maxDepth (s.idstack.length + 1) }
            hchain'
            (fun h hh y hy => by
              obtain rfl : id = h := by simpa using hh
              exact hint y hy)
            (fun d hd => hdecls d (by simp [declsV]; exact Or.inr hd))
            hdg
      · simp only [CheckItemRecursionVisitor.visit, with_item_id_pushed]
        split
        · rename_i hcond
          exact (hdup (by simpa using hcond)).elim
        · exact ih (.vexprs es)
            { s with idstack := id :: s.idstack,
                     consults := s.consults ++ [(id, s.idstack)],
                     maxDepth := max s.maxDepth (s.idstack.length + 1) }
            hchain'
            (fun h hh y hy => by
              obtain rfl : id = h := by simpa using hh
              exact hint y hy)
            (fun d hd => hdecls d (by simp [declsV]; exact Or.inr hd))
            hdg
    · -- visit_impl_item
      have hd0 : Decl.implItem (.mk id sp node) ∈ declTable am krate :=
        hdecls _ (by cases node <;> simp [declsV])
      have hint : ∀ y ∈ declSuccs dm am (Decl.implItem (.mk id sp node)),
          refEdge dm am krate id y :=
        fun y hy => ⟨_, hd0, by simp [Decl.id, ImplItem.id], hy⟩
      have hdup : id ∈ s.idstack → False := by
        intro hmem
        rcases hst : s.idstack with _ | ⟨a, t⟩
        · rw [hst] at hmem; simp at hmem
        · have hh : s.idstack.head? = some a := by rw [hst]; rfl
          have hedge : refEdge dm am krate a id :=
            hlink a hh id (by simp [vsuccs, ImplItem.id])
          exact hacyc id (cycle_of_mem_stack s.idstack a id hch hh hedge hmem)
      have hchain' : List.Chain' (fun a b => refEdge dm am krate b a) (id :: s.idstack) :=
        List.chain'_cons'.2 ⟨fun y hy => hlink y hy id (by simp [vsuccs, ImplItem.id]), hch⟩
      rcases node with e | es
      · simp only [CheckItemRecursionVisitor.visit, with_item_id_pushed]
        split
        · rename_i hcond
          exact (hdup (by simpa using hcond)).elim
        · exact ih (.vexpr e)
            { s with idstack := id :: s.idstack,
                     consults := s.consults ++ [(id, s.idstack)],
                     maxDepth := max s.maxDepth (s.idstack.length + 1) }
            hchain'
            (fun h hh y hy => by
              obtain rfl : id = h := by simpa using hh
              exact hint y hy)
            (fun d hd => hdecls d (by simp [declsV]; exact Or.inr hd))
            hdg
      · simp only [CheckItemRecursionVisitor.visit, with_item_id_pushed]
        split
        · rename_i hcond
          exact (hdup (by simpa using hcond)).elim
        · exact ih (.vexprs es)
            { s with idstack := id :: s.idstack,
                     consults := s.consults ++ [(id, s.idstack)],
                     maxDepth := max s.maxDepth (s.idstack.length + 1) }
            hchain'
            (fun h hh y hy => by
              obtain rfl : id = h := by simpa using hh
              exact hint y hy)
            (fun d hd => hdecls d (by simp [declsV]; exact Or.inr hd))
            hdg
    · -- visit_expr
      rcases e with ⟨eid, espan, subs⟩ | ⟨eid, espan, subs, its⟩
      · have hlsubs : ∀ h, s.idstack.head? = some h → ∀ y ∈ vsuccs dm am (.vexprs subs),
            refEdge dm am krate h y :=
          fun h hh y hy => hlink h hh y (by
            simp only [vsuccs]
            exact List.mem_append.2 (Or.inr hy))
        have hdsubs : ∀ d ∈ declsV (.vexprs subs), d ∈ declTable am krate :=
          fun d hd => hdecls d (by simpa [declsV] using hd)
        rcases hlk : List.lookup eid dm with _ | d'
        · simp only [CheckItemRecursionVisitor.visit, hlk]
          exact ih _ s hch hlsubs hdsubs hdg
        · rcases d' with ⟨did, mutbl⟩ | did | ⟨did, prov⟩ | _
          · by_cases hloc : is_local did = true
            · rcases hget : am.get did.node with it | ti | ii | _ | descr
              · have hti : List.lookup did.node am = some (.nodeItem it) :=
                  lookup_of_get am did.node _ hget (by intro str hcontra; cases hcontra)
                have hdit : ∀ d ∈ declsV (.vitem it), d ∈ declTable am krate := by
                  intro d hd
                  refine List.mem_append.2 (Or.inr ?_)
                  refine List.mem_flatten.2 ⟨declsOfAstNode (.nodeItem it), ?_, ?_⟩
                  · exact List.mem_map.2 ⟨(did.node, .nodeItem it),
                      lookup_mem am did.node _ hti, rfl⟩
                  · simpa [declsOfAstNode] using hd
                have hlit : ∀ h, s.idstack.head? = some h → ∀ y ∈ vsuccs dm am (.vitem it),
                    refEdge dm am krate h y := by
                  intro h hh y hy
                  have hyid : y = it.id := by simpa [vsuccs] using hy
                  refine hlink h hh y ?_
                  simp only [vsuccs]
                  refine List.mem_append.2 (Or.inl ?_)
                  simp [pathEnterId, hlk, hloc, hget, hyid]
                simp only [CheckItemRecursionVisitor.visit, hlk, hloc, hget, if_true]
                exact hseq (.vitem it) (.vexprs subs) s hch hlit hlsubs hdit hdsubs hdg
              · have hti : List.lookup did.node am = some (.nodeTraitItem ti) :=
                  lookup_of_get am did.node _ hget (by intro str hcontra; cases hcontra)
                have hdit : ∀ d ∈ declsV (.vtraitItem ti), d ∈ declTable am krate := by
                  intro d hd
                  refine List.mem_append.2 (Or.inr ?_)
                  refine List.mem_flatten.2 ⟨declsOfAstNode (.nodeTraitItem ti), ?_, ?_⟩
                  · exact List.mem_map.2 ⟨(did.node, .nodeTraitItem ti),
                      lookup_mem am did.node _ hti, rfl⟩
                  · simpa [declsOfAstNode] using hd
                have hlit : ∀ h, s.idstack.head? = some h →
                    ∀ y ∈ vsuccs dm am (.vtraitItem ti), refEdge dm am krate h y := by
                  intro h hh y hy
                  have hyid : y = ti.id := by simpa [vsuccs] using hy
                  refine hlink h hh y ?_
                  simp only [vsuccs]
                  refine List.mem_append.2 (Or.inl ?_)
                  simp [pathEnterId, hlk, hloc, hget, hyid]
                simp only [CheckItemRecursionVisitor.visit, hlk, hloc, hget, if_true]
                exact hseq (.vtraitItem ti) (.vexprs subs) s hch hlit hlsubs hdit hdsubs hdg
              · have hti : List.lookup did.node am = some (.nodeImplItem ii) :=
                  lookup_of_get am did.node _ hget (by intro str hcontra; cases hcontra)
                have hdit : ∀ d ∈ declsV (.vimplItem ii), d ∈ declTable am krate := by
                  intro d hd
                  refine List.mem_append.2 (Or.inr ?_)
                  refine List.mem_flatten.2 ⟨declsOfAstNode (.nodeImplItem ii), ?_, ?_⟩
                  · exact List.mem_map.2 ⟨(did.node, .nodeImplItem ii),
                      lookup_mem am did.node _ hti, rfl⟩
                  · simpa [declsOfAstNode] using hd
                have hlit : ∀ h, s.idstack.head? = some h →
                    ∀ y ∈ vsuccs dm am (.vimplItem ii), refEdge dm am krate h y := by
                  intro h hh y hy
                  have hyid : y = ii.id := by simpa [vsuccs] using hy
                  refine hlink h hh y ?_
                  simp only [vsuccs]
                  refine List.mem_append.2 (Or.inl ?_)
                  simp [pathEnterId, hlk, hloc, hget, hyid]
                simp only [CheckItemRecursionVisitor.visit, hlk, hloc, hget, if_true]
                exact hseq (.vimplItem ii) (.vexprs subs) s hch hlit hlsubs hdit hdsubs hdg
              · simp only [CheckItemRecursionVisitor.visit, hlk, hloc, hget, if_true]
                exact ih _ s hch hlsubs hdsubs hdg
              · simp only [CheckItemRecursionVisitor.visit, hlk, hloc, hget, if_true]
                intro d hd
                rcases List.mem_append.1 hd with h | h
                · exact hdg d h
                · simp at h
                  simp [h]
            · simp only [CheckItemRecursionVisitor.visit, hlk, hloc]
              simp only [Bool.false_eq_true, if_false]
              exact ih _ s hch hlsubs hdsubs hdg
          · by_cases hloc : is_local did = true
            · rcases hget : am.get did.node with it | ti | ii | _ | descr
              · have hti : List.lookup did.node am = some (.nodeItem it) :=
                  lookup_of_get am did.node _ hget (by intro str hcontra; cases hcontra)
                have hdit : ∀ d ∈ declsV (.vitem it), d ∈ declTable am krate := by
                  intro d hd
                  refine List.mem_append.2 (Or.inr ?_)
                  refine List.mem_flatten.2 ⟨declsOfAstNode (.nodeItem it), ?_, ?_⟩
                  · exact List.mem_map.2 ⟨(did.node, .nodeItem it),
                      lookup_mem am did.node _ hti, rfl⟩
                  · simpa [declsOfAstNode] using hd
                have hlit : ∀ h, s.idstack.head? = some h → ∀ y ∈ vsuccs dm am (.vitem it),
                    refEdge dm am krate h y := by
                  intro h hh y hy
                  have hyid : y = it.id := by simpa [vsuccs] using hy
                  refine hlink h hh y ?_
                  simp only [vsuccs]
                  refine List.mem_append.2 (Or.inl ?_)
                  simp [pathEnterId, hlk, hloc, hget, hyid]
                simp only [CheckItemRecursionVisitor.visit, hlk, hloc, hget, if_true]
                exact hseq (.vitem it) (.vexprs subs) s hch hlit hlsubs hdit hdsubs hdg
              · have hti : List.lookup did.node am = some (.nodeTraitItem ti) :=
                  lookup_of_get am did.node _ hget (by intro str hcontra; cases hcontra)
                have hdit : ∀ d ∈ declsV (.vtraitItem ti), d ∈ declTable am krate := by
                  intro d hd
                  refine List.mem_append.2 (Or.inr ?_)
                  refine List.mem_flatten.2 ⟨declsOfAstNode (.nodeTraitItem ti), ?_, ?_⟩
                  · exact List.mem_map.2 ⟨(did.node, .nodeTraitItem ti),
                      lookup_mem am did.node _ hti, rfl⟩
                  · simpa [declsOfAstNode] using hd
                have hlit : ∀ h, s.idstack.head? = some h →
                    ∀ y ∈ vsuccs dm am (.vtraitItem ti), refEdge dm am krate h y := by
                  intro h hh y hy
                  have hyid : y = ti.id := by simpa [vsuccs] using hy
                  refine hlink h hh y ?_
                  simp only [vsuccs]
                  refine List.mem_append.2 (Or.inl ?_)
                  simp [pathEnterId, hlk, hloc, hget, hyid]
                simp only [CheckItemRecursionVisitor.visit, hlk, hloc, hget, if_true]
                exact hseq (.vtraitItem ti) (.vexprs subs) s hch hlit hlsubs hdit hdsubs hdg
              · have hti : List.lookup did.node am = some (.nodeImplItem ii) :=
                  lookup_of_get am did.node _ hget (by intro str hcontra; cases hcontra)
                have hdit : ∀ d ∈ declsV (.vimplItem ii), d ∈ declTable am krate := by
                  intro d hd
                  refine List.mem_append.2 (Or.inr ?_)
                  refine List.mem_flatten.2 ⟨declsOfAstNode (.nodeImplItem ii), ?_, ?_⟩
                  · exact List.mem_map.2 ⟨(did.node, .nodeImplItem ii),
                      lookup_mem am did.node _ hti, rfl⟩
                  · simpa [declsOfAstNode] using hd
                have hlit : ∀ h, s.idstack.head? = some h →
                    ∀ y ∈ vsuccs dm am (.vimplItem ii), refEdge dm am krate h y := by
                  intro h hh y hy
                  have hyid : y = ii.id := by simpa [vsuccs] using hy
                  refine hlink h hh y ?_
                  simp only [vsuccs]
                  refine List.mem_append.2 (Or.inl ?_)
                  simp [pathEnterId, hlk, hloc, hget, hyid]
                simp only [CheckItemRecursionVisitor.visit, hlk, hloc, hget, if_true]
                exact hseq (.vimplItem ii) (.vexprs subs) s hch hlit hlsubs hdit hdsubs hdg
              · simp only [CheckItemRecursionVisitor.visit, hlk, hloc, hget, if_true]
                exact ih _ s hch hlsubs hdsubs hdg
              · simp only [CheckItemRecursionVisitor.visit, hlk, hloc, hget, if_true]
                intro d hd
                rcases List.mem_append.1 hd with h | h
                · exact hdg d h
                · simp at h
                  simp [h]
            · simp only [CheckItemRecursionVisitor.visit, hlk, hloc]
              simp only [Bool.false_eq_true, if_false]
              exact ih _ s hch hlsubs hdsubs hdg
          · by_cases hloc : is_local did = true
            · rcases hget : am.get did.node with it | ti | ii | _ | descr
              · have hti : List.lookup did.node am = some (.nodeItem it) :=
                  lookup_of_get am did.node _ hget (by intro str hcontra; cases hcontra)
                have hdit : ∀ d ∈ declsV (.vitem it), d ∈ declTable am krate := by
                  intro d hd
                  refine List.mem_append.2 (Or.inr ?_)
                  refine List.mem_flatten.2 ⟨declsOfAstNode (.nodeItem it), ?_, ?_⟩
                  · exact List.mem_map.2 ⟨(did.node, .nodeItem it),
                      lookup_mem am did.node _ hti, rfl⟩
                  · simpa [declsOfAstNode] using hd
                have hlit : ∀ h, s.idstack.head? = some h → ∀ y ∈ vsuccs dm am (.vitem it),
                    refEdge dm am krate h y := by
                  intro h hh y hy
                  have hyid : y = it.id := by simpa [vsuccs] using hy
                  refine hlink h hh y ?_
                  simp only [vsuccs]
                  refine List.mem_append.2 (Or.inl ?_)
                  simp [pathEnterId, hlk, hloc, hget, hyid]
                simp only [CheckItemRecursionVisitor.visit, hlk, hloc, hget, if_true]
                exact hseq (.vitem it) (.vexprs subs) s hch hlit hlsubs hdit hdsubs hdg
              · have hti : List.lookup did.node am = some (.nodeTraitItem ti) :=
                  lookup_of_get am did.node _ hget (by intro str hcontra; cases hcontra)
                have hdit : ∀ d ∈ declsV (.vtraitItem ti), d ∈ declTable am krate := by
                  intro d hd
                  refine List.mem_append.2 (Or.inr ?_)
                  refine List.mem_flatten.2 ⟨declsOfAstNode (.nodeTraitItem ti), ?_, ?_⟩
                  · exact List.mem_map.2 ⟨(did.node, .nodeTraitItem ti),
                      lookup_mem am did.node _ hti, rfl⟩
                  · simpa [declsOfAstNode] using hd
                have hlit : ∀ h, s.idstack.head? = some h →
                    ∀ y ∈ vsuccs dm am (.vtraitItem ti), refEdge dm am krate h y := by
                  intro h hh y hy
                  have hyid : y = ti.id := by simpa [vsuccs] using hy
                  refine hlink h hh y ?_
                  simp only [vsuccs]
                  refine List.mem_append.2 (Or.inl ?_)
                  simp [pathEnterId, hlk, hloc, hget, hyid]
                simp only [CheckItemRecursionVisitor.visit, hlk, hloc, hget, if_true]
                exact hseq (.vtraitItem ti) (.vexprs subs) s hch hlit hlsubs hdit hdsubs hdg
              · have hti : List.lookup did.node am = some (.nodeImplItem ii) :=
                  lookup_of_get am did.node _ hget (by intro str hcontra; cases hcontra)
                have hdit : ∀ d ∈ declsV (.vimplItem ii), d ∈ declTable am krate := by
                  intro d hd
                  refine List.mem_append.2 (Or.inr ?_)
                  refine List.mem_flatten.2 ⟨declsOfAstNode (.nodeImplItem ii), ?_, ?_⟩
                  · exact List.mem_map.2 ⟨(did.node, .nodeImplItem ii),
                      lookup_mem am did.node _ hti, rfl⟩
                  · simpa [declsOfAstNode] using hd
                have hlit : ∀ h, s.idstack.head? = some h →
                    ∀ y ∈ vsuccs dm am (.vimplItem ii), refEdge dm am krate h y := by
                  intro h hh y hy
                  have hyid : y = ii.id := by simpa [vsuccs] using hy
                  refine hlink h hh y ?_
                  simp only [vsuccs]
                  refine List.mem_append.2 (Or.inl ?_)
                  simp [pathEnterId, hlk, hloc, hget, hyid]
                simp only [CheckItemRecursionVisitor.visit, hlk, hloc, hget, if_true]
                exact hseq (.vimplItem ii) (.vexprs subs) s hch hlit hlsubs hdit hdsubs hdg
              · simp only [CheckItemRecursionVisitor.visit, hlk, hloc, hget, if_true]
                exact ih _ s hch hlsubs hdsubs hdg
              · simp only [CheckItemRecursionVisitor.visit, hlk, hloc, hget, if_true]
                intro d hd
                rcases List.mem_append.1 hd with h | h
                · exact hdg d h
                · simp at h
                  simp [h]
            · simp only [CheckItemRecursionVisitor.visit, hlk, hloc]
              simp only [Bool.false_eq_true, if_false]
              exact ih _ s hch hlsubs hdsubs hdg
          · simp only [CheckItemRecursionVisitor.visit, hlk]
            exact ih _ s hch hlsubs hdsubs hdg
      · -- comp
        simp only [CheckItemRecursionVisitor.visit]
        exact hseq (.vitems its) (.vexprs subs) s hch
          (fun h hh y hy => hlink h hh y (by
            simp only [vsuccs]
            exact List.mem_append.2 (Or.inl hy)))
          (fun h hh y hy => hlink h hh y (by
            simp only [vsuccs]
            exact List.mem_append.2 (Or.inr hy)))
          (fun d hd => hdecls d (by
            simp only [declsV]
            exact List.mem_append.2 (Or.inl hd)))
          (fun d hd => hdecls d (by
            simp only [declsV]
            exact List.mem_append.2 (Or.inr hd)))
          hdg
    · rcases l with _ | ⟨i, r⟩
      · simp only [CheckItemRecursionVisitor.visit]
        exact hdg
      · simp only [CheckItemRecursionVisitor.visit]
        exact hseq (.vitem i) (.vitems r) s hch
          (fun h hh y hy => hlink h hh y (by
            rw [vsuccs_vitems_cons]
            exact List.mem_append.2 (Or.inl hy)))
          (fun h hh y hy => hlink h hh y (by
            rw [vsuccs_vitems_cons]
            exact List.mem_append.2 (Or.inr hy)))
          (fun d hd => hdecls d (by
            simp only [declsV]
            exact List.mem_append.2 (Or.inl hd)))
          (fun d hd => hdecls d (by
            simp only [declsV]
            exact List.mem_append.2 (Or.inr hd)))
          hdg
    · rcases l with _ | ⟨i, r⟩
      · simp only [CheckItemRecursionVisitor.visit]
        exact hdg
      · simp only [CheckItemRecursionVisitor.visit]
        exact hseq (.vtraitItem i) (.vtraitItems r) s hch
          (fun h hh y hy => hlink h hh y (by
            rw [vsuccs_vtraitItems_cons]
            exact List.mem_append.2 (Or.inl hy)))
          (fun h hh y hy => hlink h hh y (by
            rw [vsuccs_vtraitItems_cons]
            exact List.mem_append.2 (Or.inr hy)))
          (fun d hd => hdecls d (by
            simp only [declsV]
            exact List.mem_append.2 (Or.inl hd)))
          (fun d hd => hdecls d (by
            simp only [declsV]
            exact List.mem_append.2 (Or.inr hd)))
          hdg
    · rcases l with _ | ⟨i, r⟩
      · simp only [CheckItemRecursionVisitor.visit]
        exact hdg
      · simp only [CheckItemRecursionVisitor.visit]
        exact hseq (.vimplItem i) (.vimplItems r) s hch
          (fun h hh y hy => hlink h hh y (by
            rw [vsuccs_vimplItems_cons]
            exact List.mem_append.2 (Or.inl hy)))
          (fun h hh y hy => hlink h hh y (by
            rw [vsuccs_vimplItems_cons]
            exact List.mem_append.2 (Or.inr hy)))
          (fun d hd => hdecls d (by
            simp only [declsV]
            exact List.mem_append.2 (Or.inl hd)))
          (fun d hd => hdecls d (by
            simp only [declsV]
            exact List.mem_append.2 (Or.inr hd)))
          hdg
    · rcases l with _ | ⟨i, r⟩
      · simp only [CheckItemRecursionVisitor.visit]
        exact hdg
      · simp only [CheckItemRecursionVisitor.visit]
        exact hseq (.vexpr i) (.vexprs r) s hch
          (fun h hh y hy => hlink h hh y (by
            rw [vsuccs_vexprs_cons]
            exact List.mem_append.2 (Or.inl hy)))
          (fun h hh y hy => hlink h hh y (by
            rw [vsuccs_vexprs_cons]
            exact List.mem_append.2 (Or.inr hy)))
          (fun d hd => hdecls d (by
            simp only [declsV]
            exact List.mem_append.2 (Or.inl hd)))
          (fun d hd => hdecls d (by
            simp only [declsV]
            exact List.mem_append.2 (Or.inr hd)))
          hdg

theorem crate_no_rc (dm : DefMap) (am : AstMap) (krate : List Item)
    (hacyc : ∀ x, ¬ Relation.TransGen (refEdge dm am krate) x x) :
    ∀ (f : Nat) (v : VNode) (s : VisitState),
      (∀ d ∈ declsV v, d ∈ declTable am krate) →
      DiagsOK s.diags →
      DiagsOK (CheckCrateVisitor.visit dm am f v s).diags := by
  intro f
  induction f with
  | zero => intro v s _ hdg; exact hdg
  | succ f ih =>
    intro v s hdecls hdg
    have hroot : ∀ (rv : VNode) (rsp : Nat) (s' : VisitState),
        (∀ d ∈ declsV rv, d ∈ declTable am krate) → DiagsOK s'.diags →
        DiagsOK (CheckItemRecursionVisitor.visit dm am rsp f rv
          { s' with idstack := [] }).diags := by
      intro rv rsp s' hd hdg'
      refine visit_no_rc dm am krate rsp hacyc f rv { s' with idstack := [] } ?_ ?_ hd hdg'
      · exact List.chain'_nil
      · intro h hh
        simp at hh
    have hseq : ∀ (v1 v2 : VNode) (s' : VisitState),
        (∀ d ∈ declsV v1, d ∈ declTable am krate) →
        (∀ d ∈ declsV v2, d ∈ declTable am krate) →
        DiagsOK s'.diags →
        DiagsOK (CheckCrateVisitor.visit dm am f v2
          (CheckCrateVisitor.visit dm am f v1 s')).diags :=
      fun v1 v2 s' hd1 hd2 hdg' => ih v2 _ hd2 (ih v1 s' hd1 hdg')
    rcases v with ⟨id, sp, node⟩ | ⟨id, sp, node⟩ | ⟨id, sp, node⟩ | e | l | l | l | l
    · cases node with
      | itemStatic init =>
        simp only [CheckCrateVisitor.visit]
        refine ih (.vexpr init) _ (fun d hd => hdecls d (by simp [declsV]; exact Or.inr hd)) ?_
        exact hroot (.vitem (.mk id sp (.itemStatic init))) sp s hdecls hdg
      | itemConst init =>
        simp only [CheckCrateVisitor.visit]
        refine ih (.vexpr init) _ (fun d hd => hdecls d (by simp [declsV]; exact Or.inr hd)) ?_
        exact hroot (.vitem (.mk id sp (.itemConst init))) sp s hdecls hdg
      | itemTrait tis =>
        simp only [CheckCrateVisitor.visit]
        exact ih (.vtraitItems tis) s
          (fun d hd => hdecls d (by simp [declsV]; exact Or.inr hd)) hdg
      | itemImpl iis =>
        simp only [CheckCrateVisitor.visit]
        exact ih (.vimplItems iis) s
          (fun d hd => hdecls d (by simp [declsV]; exact Or.inr hd)) hdg
      | itemOther its es =>
        simp only [CheckCrateVisitor.visit]
        exact hseq (.vitems its) (.vexprs es) s
          (fun d hd => hdecls d (by simp [declsV]; exact Or.inr (Or.inl hd)))
          (fun d hd => hdecls d (by simp [declsV]; exact Or.inr (Or.inr hd)))
          hdg
    · rcases node with ⟨_ | e⟩ | es
      · simp only [CheckCrateVisitor.visit]
        exact hdg
      · simp only [CheckCrateVisitor.visit]
        refine ih (.vexpr e) _ (fun d hd => hdecls d (by simp [declsV]; exact Or.inr hd)) ?_
        exact hroot (.vtraitItem (.mk id sp (.constTraitItem (some e)))) sp s hdecls hdg
      · simp only [CheckCrateVisitor.visit]
        exact ih (.vexprs es) s
          (fun d hd => hdecls d (by simp [declsV]; exact Or.inr hd)) hdg
    · rcases node with e | es
      · simp only [CheckCrateVisitor.visit]
        refine ih (.vexpr e) _ (fun d hd => hdecls d (by simp [declsV]; exact Or.inr hd)) ?_
        exact hroot (.vimplItem (.mk id sp (.constImplItem e))) sp s hdecls hdg
      · simp only [CheckCrateVisitor.visit]
        exact ih (.vexprs es) s
          (fun d hd => hdecls d (by simp [declsV]; exact Or.inr hd)) hdg
    · rcases e with ⟨eid, espan, subs⟩ | ⟨eid, espan, subs, its⟩
      · simp only [CheckCrateVisitor.visit]
        exact ih (.vexprs subs) s (fun d hd => hdecls d (by simpa [declsV] using hd)) hdg
      · simp only [CheckCrateVisitor.visit]
        exact hseq (.vitems its) (.vexprs subs) s
          (fun d hd => hdecls d (by
            simp only [declsV]
            exact List.mem_append.2 (Or.inl hd)))
          (fun d hd => hdecls d (by
            simp only [declsV]
            exact List.mem_append.2 (Or.inr hd)))
          hdg
    · rcases l with _ | ⟨i, r⟩
      · simp only [CheckCrateVisitor.visit]
        exact hdg
      · simp only [CheckCrateVisitor.visit]
        exact hseq (.vitem i) (.vitems r) s
          (fun d hd => hdecls d (by
            simp only [declsV]
            exact List.mem_append.2 (Or.inl hd)))
          (fun d hd => hdecls d (by
            simp only [declsV]
            exact List.mem_append.2 (Or.inr hd)))
          hdg
    · rcases l with _ | ⟨i, r⟩
      · simp only [CheckCrateVisitor.visit]
        exact hdg
      · simp only [CheckCrateVisitor.visit]
        exact hseq (.vtraitItem i) (.vtraitItems r) s
          (fun d hd => hdecls d (by
            simp only [declsV]
            exact List.mem_append.2 (Or.inl hd)))
          (fun d hd => hdecls d (by
            simp only [declsV]
            exact List.mem_append.2 (Or.inr hd)))
          hdg
    · rcases l with _ | ⟨i, r⟩
      · simp only [CheckCrateVisitor.visit]
        exact hdg
      · simp only [CheckCrateVisitor.visit]
        exact hseq (.vimplItem i) (.vimplItems r) s
          (fun d hd => hdecls d (by
            simp only [declsV]
            exact List.mem_append.2 (Or.inl hd)))
          (fun d hd => hdecls d (by
            simp only [declsV]
            exact List.mem_append.2 (Or.inr hd)))
          hdg
    · rcases l with _ | ⟨i, r⟩
      · simp only [CheckCrateVisitor.visit]
        exact hdg
      · simp only [CheckCrateVisitor.visit]
        exact hseq (.vexpr i) (.vexprs r) s
          (fun d hd => hdecls d (by
            simp only [declsV]
            exact List.mem_append.2 (Or.inl hd)))
          (fun d hd => hdecls d (by
            simp only [declsV]
            exact List.mem_append.2 (Or.inr hd)))
          hdg

theorem acyclic_of_rank {R : Nat → Nat → Prop} (rk : Nat → Nat)
    (h : ∀ x y, R x y → rk y < rk x) : ∀ x, ¬ Relation.TransGen R x x := by
  have hlt : ∀ x y, Relation.TransGen R x y → rk y < rk x := by
    intro x y hxy
    induction hxy with
    | single hstep => exact h _ _ hstep
    | tail _ hstep ihs => exact lt_trans (h _ _ hstep) ihs
  intro x hx
  exact absurd (hlt x x hx) (lt_irrefl _)

/-- Claim C3: for every program whose constant-to-constant reference graph
(`refEdge`, which relates a declaration to the declarations its walk enters
directly, by structural nesting or by a resolved local constant reference)
is acyclic, the pass emits zero `RecursiveConstant` diagnostics.  The
witness instantiates this at the diamond program `dItemA`..`dItemD` (`A`
references `B` and `C`, both reference the non-cyclic `D`): `D` is legally
revisited because each visit completes and pops before the sibling branch
begins, and no diagnostic is produced. -/
theorem acyclic_no_recursion_diagnostics (dm : DefMap) (am : AstMap) (fuel : Nat)
    (krate : List Item)
    (hacyc : ∀ x, ¬ Relation.TransGen (refEdge dm am krate) x x) :
    ∀ d ∈ (check_crate dm am fuel krate).1.diags, d.kind ≠ DiagKind.recursiveConstant := by
  intro d hd
  refine crate_no_rc dm am krate hacyc fuel (.vitems krate) freshState ?_ ?_ d hd
  · intro d' hd'
    exact List.mem_append.2 (Or.inl hd')
  · intro d' hd'
    simp [freshState] at hd'

theorem acyclic_no_recursion_diagnostics_witness :
    (∀ x, ¬ Relation.TransGen (refEdge dDm dAm dKrate) x x) ∧
    (∀ d ∈ (check_crate dDm dAm 30 dKrate).1.diags, d.kind ≠ DiagKind.recursiveConstant) := by
  have hacyc : ∀ x, ¬ Relation.TransGen (refEdge dDm dAm dKrate) x x := by
    refine acyclic_of_rank (fun x => 5 - x) ?_
    intro x y hxy
    obtain ⟨d, hd, hx, hy⟩ := hxy
    simp only [declTable, dKrate, dAm, dItemA, dItemB, dItemC, dItemD, declsV, declsOfAstNode,
      List.map_cons, List.map_nil, List.flatten_cons, List.flatten_nil, List.append_assoc,
      List.cons_append, List.nil_append, List.append_nil] at hd
    fin_cases hd <;>
    · dsimp only
      simp [declSuccs, vsuccs, pathEnterId, dDm, dAm, dItemB, dItemC, dItemD, AstMap.get,
        List.lookup, is_local, LOCAL_CRATE, Decl.id, Item.id] at hx hy
      all_goals omega
  exact ⟨hacyc, acyclic_no_recursion_diagnostics dDm dAm 30 dKrate hacyc⟩

def vsize : VNode → Nat
  | .vitem (.mk _ _ node) =>
    2 + (match node with
      | .itemStatic init => 1 + vsize (.vexpr init)
      | .itemConst init => 1 + vsize (.vexpr init)
      | .itemTrait tis => 1 + vsize (.vtraitItems tis)
      | .itemImpl iis => 1 + vsize (.vimplItems iis)
      | .itemOther its es => 1 + vsize (.vitems its) + vsize (.vexprs es))
  | .vtraitItem (.mk _ _ node) =>
    2 + (match node with
      | .constTraitItem (some e) => 1 + vsize (.vexpr e)
      | .constTraitItem none => 1
      | .otherTraitItem es => 1 + vsize (.vexprs es))
  | .vimplItem (.mk _ _ node) =>
    2 + (match node with
      | .constImplItem init => 1 + vsize (.vexpr init)
      | .otherImplItem es => 1 + vsize (.vexprs es))
  | .vexpr (.path _ _ subs) => 2 + vsize (.vexprs subs)
  | .vexpr (.comp _ _ subs its) => 2 + vsize (.vitems its) + vsize (.vexprs subs)
  | .vitems [] => 1
  | .vitems (i :: r) => 1 + vsize (.vitem i) + vsize (.vitems r)
  | .vtraitItems [] => 1
  | .vtraitItems (ti :: r) => 1 + vsize (.vtraitItem ti) + vsize (.vtraitItems r)
  | .vimplItems [] => 1
  | .vimplItems (ii :: r) => 1 + vsize (.vimplItem ii) + vsize (.vimplItems r)
  | .vexprs [] => 1
  | .vexprs (e :: r) => 1 + vsize (.vexpr e) + vsize (.vexprs r)

theorem vsize_pos : ∀ v : VNode, 1 ≤ vsize v := by
  intro v
  rcases v with ⟨_, _, node⟩ | ⟨_, _, node⟩ | ⟨_, _, node⟩ | e | l | l | l | l
  · rcases node with _ | _ | _ | _ | _ <;> simp [vsize] <;> omega
  · rcases node with ⟨_ | _⟩ | _ <;> simp [vsize] <;> omega
  · rcases node with _ | _ <;> simp [vsize] <;> omega
  · rcases e with _ | _ <;> simp [vsize] <;> omega
  · rcases l with _ | _ <;> simp [vsize] <;> omega
  · rcases l with _ | _ <;> simp [vsize] <;> omega
  · rcases l with _ | _ <;> simp [vsize] <;> omega
  · rcases l with _ | _ <;> simp [vsize] <;> omega

def declIds (am : AstMap) (krate : List Item) : List Nat :=
  ((declTable am krate).map Decl.id).dedup

def numDecls (am : AstMap) (krate : List Item) : Nat := (declIds am krate).length

def declISZ : Decl → Nat
  | .item (.mk _ _ (.itemStatic init)) => vsize (.vexpr init)
  | .item (.mk _ _ (.itemConst init)) => vsize (.vexpr init)
  | .item (.mk _ _ (.itemTrait tis)) => vsize (.vtraitItems tis)
  | .item (.mk _ _ (.itemImpl iis)) => vsize (.vimplItems iis)
  | .item (.mk _ _ (.itemOther its es)) =>
    max (vsize (.vitems its)) (vsize (.vexprs es))
  | .traitItem (.mk _ _ (.constTraitItem (some e))) => vsize (.vexpr e)
  | .traitItem (.mk _ _ (.constTraitItem none)) => 0
  | .traitItem (.mk _ _ (.otherTraitItem es)) => vsize (.vexprs es)
  | .implItem (.mk _ _ (.constImplItem init)) => vsize (.vexpr init)
  | .implItem (.mk _ _ (.otherImplItem es)) => vsize (.vexprs es)

def maxISZ (am : AstMap) (krate : List Item) : Nat :=
  ((declTable am krate).map declISZ).foldr max 0

def stepCost (am : AstMap) (krate : List Item) : Nat := maxISZ am krate + 3

def fuelNeed (am : AstMap) (krate : List Item) (v : VNode) (n : Nat) : Nat :=
  match v with
  | .vitem _ | .vtraitItem _ | .vimplItem _ =>
    if n < numDecls am krate then
      2 + maxISZ am krate + (numDecls am krate - n - 1) * stepCost am krate
    else 1
  | _ => vsize v + (numDecls am krate - n) * stepCost am krate

def crateFuelBound (am : AstMap) (krate : List Item) : Nat :=
  vsize (.vitems krate) + numDecls am krate * stepCost am krate + 2

theorem foldr_max_le_of_mem : ∀ (l : List Nat) (a : Nat), a ∈ l → a ≤ l.foldr max 0 := by
  intro l
  induction l with
  | nil => intro a ha; simp at ha
  | cons b t ih =>
    intro a ha
    rcases List.mem_cons.1 ha with rfl | ha'
    · exact le_max_left _ _
    · exact le_trans (ih a ha') (le_max_right _ _)

theorem declISZ_le_maxISZ (am : AstMap) (krate : List Item) (d : Decl)
    (hd : d ∈ declTable am krate) : declISZ d ≤ maxISZ am krate :=
  foldr_max_le_of_mem _ _ (List.mem_map.2 ⟨d, hd, rfl⟩)

theorem declId_mem_declIds (am : AstMap) (krate : List Item) (d : Decl)
    (hd : d ∈ declTable am krate) : d.id ∈ declIds am krate := by
  rw [declIds, List.mem_dedup]
  exact List.mem_map.2 ⟨d, hd, rfl⟩

theorem numDecls_pos (am : AstMap) (krate : List Item) (d : Decl)
    (hd : d ∈ declTable am krate) : 1 ≤ numDecls am krate :=
  List.length_pos.2 (fun hnil => by
    have := declId_mem_declIds am krate d hd
    rw [hnil] at this
    simp at this)

theorem nodup_subset_length_le (l : List Nat) (am : AstMap) (krate : List Item)
    (hn : l.Nodup) (hs : ∀ x ∈ l, x ∈ declIds am krate) : l.length ≤ numDecls am krate := by
  have h1 : l.toFinset.card = l.length := List.toFinset_card_of_nodup hn
  have h2 : (declIds am krate).toFinset.card = numDecls am krate :=
    List.toFinset_card_of_nodup (List.nodup_dedup _)
  rw [← h1, ← h2]
  exact Finset.card_le_card (fun x hx => List.mem_toFinset.2 (hs x (List.mem_toFinset.1 hx)))

theorem fuelNeed_pos (am : AstMap) (krate : List Item) (v : VNode) (n : Nat) :
    1 ≤ fuelNeed am krate v n := by
  have := vsize_pos v
  cases v <;> simp [fuelNeed] <;> first
    | (split <;> omega)
    | omega

theorem with_item_id_pushed_maxDepth (am : AstMap) (krate : List Item) (rsp id : Nat)
    (g : VisitState → VisitState) (s : VisitState)
    (h1 : s.idstack.Nodup) (h2 : ∀ x ∈ s.idstack, x ∈ declIds am krate)
    (hid : id ∈ declIds am krate) (hm : s.maxDepth ≤ numDecls am krate)
    (hg : ∀ s', s'.idstack.Nodup → (∀ x ∈ s'.idstack, x ∈ declIds am krate) →
      s'.maxDepth ≤ numDecls am krate → (g s').maxDepth ≤ numDecls am krate) :
    (with_item_id_pushed rsp id g s).maxDepth ≤ numDecls am krate := by
  simp only [with_item_id_pushed]
  split
  · exact hm
  · rename_i hcond
    have hmem : id ∉ s.idstack := by simpa using hcond
    have hnd : (id :: s.idstack).Nodup := List.nodup_cons.2 ⟨hmem, h1⟩
    have hsub : ∀ x ∈ id :: s.idstack, x ∈ declIds am krate := by
      intro x hx
      rcases List.mem_cons.1 hx with rfl | hx'
      · exact hid
      · exact h2 x hx'
    have hlen : (id :: s.idstack).length ≤ numDecls am krate :=
      nodup_subset_length_le _ am krate hnd hsub
    exact hg { s with idstack := id :: s.idstack,
                      consults := s.consults ++ [(id, s.idstack)],
                      maxDepth := max s.maxDepth (s.idstack.length + 1) }
      hnd hsub (by
        simp only [max_le_iff]
        exact ⟨hm, by simpa using hlen⟩)

set_option maxHeartbeats 1600000 in
theorem visit_maxDepth_le (dm : DefMap) (am : AstMap) (krate : List Item) (rsp : Nat) :
    ∀ (f : Nat) (v : VNode) (s : VisitState),
      s.idstack.Nodup → (∀ x ∈ s.idstack, x ∈ declIds am krate) →
      (∀ d ∈ declsV v, d ∈ declTable am krate) →
      s.maxDepth ≤ numDecls am krate →
      (CheckItemRecursionVisitor.visit dm am rsp f v s).maxDepth ≤ numDecls am krate := by
  intro f
  induction f with
  | zero => intro v s _ _ _ hm; exact hm
  | succ f ih =>
    intro v s h1 h2 hdecls hm
    have hseq : ∀ (v1 v2 : VNode) (s' : VisitState),
        s'.idstack.Nodup → (∀ x ∈ s'.idstack, x ∈ declIds am krate) →
        (∀ d ∈ declsV v1, d ∈ declTable am krate) →
        (∀ d ∈ declsV v2, d ∈ declTable am krate) →
        s'.maxDepth ≤ numDecls am krate →
        (CheckItemRecursionVisitor.visit dm am rsp f v2
          (CheckItemRecursionVisitor.visit dm am rsp f v1 s')).maxDepth ≤
            numDecls am krate := by
      intro v1 v2 s' hn hsub hd1 hd2 hm'
      refine ih v2 _ ?_ ?_ hd2 (ih v1 s' hn hsub hd1 hm')
      · rw [visit_idstack_eq]; exact hn
      · rw [visit_idstack_eq]; exact hsub
    rcases v with ⟨id, sp, node⟩ | ⟨id, sp, node⟩ | ⟨id, sp, node⟩ | e | l | l | l | l
    · have hd0 : Decl.item (.mk id sp node) ∈ declTable am krate :=
        hdecls _ (by cases node <;> simp [declsV])
      have hid : id ∈ declIds am krate := declId_mem_declIds am krate _ hd0
      cases node with
      | itemStatic init =>
        refine with_item_id_pushed_maxDepth am krate rsp id _ s h1 h2 hid hm ?_
        intro s' hn hsub hm'
        exact ih (.vexpr init) s' hn hsub
          (fun d hd => hdecls d (by simp [declsV]; exact Or.inr hd)) hm'
      | itemConst init =>
        refine with_item_id_pushed_maxDepth am krate rsp id _ s h1 h2 hid hm ?_
        intro s' hn hsub hm'
        exact ih (.vexpr init) s' hn hsub
          (fun d hd => hdecls d (by simp [declsV]; exact Or.inr hd)) hm'
      | itemTrait tis =>
        refine with_item_id_pushed_maxDepth am krate rsp id _ s h1 h2 hid hm ?_
        intro s' hn hsub hm'
        exact ih (.vtraitItems tis) s' hn hsub
          (fun d hd => hdecls d (by simp [declsV]; exact Or.inr hd)) hm'
      | itemImpl iis =>
        refine with_item_id_pushed_maxDepth am krate rsp id _ s h1 h2 hid hm ?_
        intro s' hn hsub hm'
        exact ih (.vimplItems iis) s' hn hsub
          (fun d hd => hdecls d (by simp [declsV]; exact Or.inr hd)) hm'
      | itemOther its es =>
        refine with_item_id_pushed_maxDepth am krate rsp id _ s h1 h2 hid hm ?_
        intro s' hn hsub hm'
        refine ih (.vexprs es) _ ?_ ?_
          (fun d hd => hdecls d (by simp [declsV]; exact Or.inr (Or.inr hd)))
          (ih (.vitems its) s' hn hsub
            (fun d hd => hdecls d (by simp [declsV]; exact Or.inr (Or.inl hd))) hm')
        · rw [visit_idstack_eq]; exact hn
        · rw [visit_idstack_eq]; exact hsub
    · have hd0 : Decl.traitItem (.mk id sp node) ∈ declTable am krate :=
        hdecls _ (by rcases node with ⟨_ | _⟩ | _ <;> simp [declsV])
      have hid : id ∈ declIds am krate := declId_mem_declIds am krate _ hd0
      rcases node with ⟨_ | e⟩ | es
      · refine with_item_id_pushed_maxDepth am krate rsp id _ s h1 h2 hid hm ?_
        intro s' _ _ hm'
        exact hm'
      · refine with_item_id_pushed_maxDepth am krate rsp id _ s h1 h2 hid hm ?_
        intro s' hn hsub hm'
        exact ih (.vexpr e) s' hn hsub
          (fun d hd => hdecls d (by simp [declsV]; exact Or.inr hd)) hm'
      · refine with_item_id_pushed_maxDepth am krate rsp id _ s h1 h2 hid hm ?_
        intro s' hn hsub hm'
        exact ih (.vexprs es) s' hn hsub
          (fun d hd => hdecls d (by simp [declsV]; exact Or.inr hd)) hm'
    · have hd0 : Decl.implItem (.mk id sp node) ∈ declTable am krate :=
        hdecls _ (by cases node <;> simp [declsV])
      have hid : id ∈ declIds am krate := declId_mem_declIds am krate _ hd0
      rcases node with e | es
      · refine with_item_id_pushed_maxDepth am krate rsp id _ s h1 h2 hid hm ?_
        intro s' hn hsub hm'
        exact ih (.vexpr e) s' hn hsub
          (fun d hd => hdecls d (by simp [declsV]; exact Or.inr hd)) hm'
      · refine with_item_id_pushed_maxDepth am krate rsp id _ s h1 h2 hid hm ?_
        intro s' hn hsub hm'
        exact ih (.vexprs es) s' hn hsub
          (fun d hd => hdecls d (by simp [declsV]; exact Or.inr hd)) hm'
    · rcases e with ⟨eid, espan, subs⟩ | ⟨eid, espan, subs, its⟩
      · have hdsubs : ∀ d ∈ declsV (.vexprs subs), d ∈ declTable am krate :=
          fun d hd => hdecls d (by simpa [declsV] using hd)
        rcases hlk : List.lookup eid dm with _ | d'
        · simp only [CheckItemRecursionVisitor.visit, hlk]
          exact ih _ s h1 h2 hdsubs hm
        · rcases d' with ⟨did, mutbl⟩ | did | ⟨did, prov⟩ | _
          · by_cases hloc : is_local did = true
            · rcases hget : am.get did.node with it | ti | ii | _ | descr <;>
                simp only [CheckItemRecursionVisitor.visit, hlk, hloc, hget, if_true]
              · have hti : List.lookup did.node am = some (.nodeItem it) :=
                  lookup_of_get am did.node _ hget (by intro str hcontra; cases hcontra)
                have hdit : ∀ d ∈ declsV (.vitem it), d ∈ declTable am krate := by
                  intro d hd
                  refine List.mem_append.2 (Or.inr ?_)
                  refine List.mem_flatten.2 ⟨declsOfAstNode (.nodeItem it), ?_, ?_⟩
                  · exact List.mem_map.2 ⟨(did.node, .nodeItem it),
                      lookup_mem am did.node _ hti, rfl⟩
                  · simpa [declsOfAstNode] using hd
                exact hseq (.vitem it) (.vexprs subs) s h1 h2 hdit hdsubs hm
              · have hti : List.lookup did.node am = some (.nodeTraitItem ti) :=
                  lookup_of_get am did.node _ hget (by intro str hcontra; cases hcontra)
                have hdit : ∀ d ∈ declsV (.vtraitItem ti), d ∈ declTable am krate := by
                  intro d hd
                  refine List.mem_append.2 (Or.inr ?_)
                  refine List.mem_flatten.2 ⟨declsOfAstNode (.nodeTraitItem ti), ?_, ?_⟩
                  · exact List.mem_map.2 ⟨(did.node, .nodeTraitItem ti),
                      lookup_mem am did.node _ hti, rfl⟩
                  · simpa [declsOfAstNode] using hd
                exact hseq (.vtraitItem ti) (.vexprs subs) s h1 h2 hdit hdsubs hm
              · have hti : List.lookup did.node am = some (.nodeImplItem ii) :=
                  lookup_of_get am did.node _ hget (by intro str hcontra; cases hcontra)
                have hdit : ∀ d ∈ declsV (.vimplItem ii), d ∈ declTable am krate := by
                  intro d hd
                  refine List.mem_append.2 (Or.inr ?_)
                  refine List.mem_flatten.2 ⟨declsOfAstNode (.nodeImplItem ii), ?_, ?_⟩
                  · exact List.mem_map.2 ⟨(did.node, .nodeImplItem ii),
                      lookup_mem am did.node _ hti, rfl⟩
                  · simpa [declsOfAstNode] using hd
                exact hseq (.vimplItem ii) (.vexprs subs) s h1 h2 hdit hdsubs hm
              · exact ih _ s h1 h2 hdsubs hm
              · exact hm
            · simp only [CheckItemRecursionVisitor.visit, hlk, hloc]
              simp only [Bool.false_eq_true, if_false]
              exact ih _ s h1 h2 hdsubs hm
          · by_cases hloc : is_local did = true
            · rcases hget : am.get did.node with it | ti | ii | _ | descr <;>
                simp only [CheckItemRecursionVisitor.visit, hlk, hloc, hget, if_true]
              · have hti : List.lookup did.node am = some (.nodeItem it) :=
                  lookup_of_get am did.node _ hget (by intro str hcontra; cases hcontra)
                have hdit : ∀ d ∈ declsV (.vitem it), d ∈ declTable am krate := by
                  intro d hd
                  refine List.mem_append.2 (Or.inr ?_)
                  refine List.mem_flatten.2 ⟨declsOfAstNode (.nodeItem it), ?_, ?_⟩
                  · exact List.mem_map.2 ⟨(did.node, .nodeItem it),
                      lookup_mem am did.node _ hti, rfl⟩
                  · simpa [declsOfAstNode] using hd
                exact hseq (.vitem it) (.vexprs subs) s h1 h2 hdit hdsubs hm
              · have hti : List.lookup did.node am = some (.nodeTraitItem ti) :=
                  lookup_of_get am did.node _ hget (by intro str hcontra; cases hcontra)
                have hdit : ∀ d ∈ declsV (.vtraitItem ti), d ∈ declTable am krate := by
                  intro d hd
                  refine List.mem_append.2 (Or.inr ?_)
                  refine List.mem_flatten.2 ⟨declsOfAstNode (.nodeTraitItem ti), ?_, ?_⟩
                  · exact List.mem_map.2 ⟨(did.node, .nodeTraitItem ti),
                      lookup_mem am did.node _ hti, rfl⟩
                  · simpa [declsOfAstNode] using hd
                exact hseq (.vtraitItem ti) (.vexprs subs) s h1 h2 hdit hdsubs hm
              · have hti : List.lookup did.node am = some (.nodeImplItem ii) :=
                  lookup_of_get am did.node _ hget (by intro str hcontra; cases hcontra)
                have hdit : ∀ d ∈ declsV (.vimplItem ii), d ∈ declTable am krate := by
                  intro d hd
                  refine List.mem_append.2 (Or.inr ?_)
                  refine List.mem_flatten.2 ⟨declsOfAstNode (.nodeImplItem ii), ?_, ?_⟩
                  · exact List.mem_map.2 ⟨(did.node, .nodeImplItem ii),
                      lookup_mem am did.node _ hti, rfl⟩
                  · simpa [declsOfAstNode] using hd
                exact hseq (.vimplItem ii) (.vexprs subs) s h1 h2 hdit hdsubs hm
              · exact ih _ s h1 h2 hdsubs hm
              · exact hm
            · simp only [CheckItemRecursionVisitor.visit, hlk, hloc]
              simp only [Bool.false_eq_true, if_false]
              exact ih _ s h1 h2 hdsubs hm
          · by_cases hloc : is_local did = true
            · rcases hget : am.get did.node with it | ti | ii | _ | descr <;>
                simp only [CheckItemRecursionVisitor.visit, hlk, hloc, hget, if_true]
              · have hti : List.lookup did.node am = some (.nodeItem it) :=
                  lookup_of_get am did.node _ hget (by intro str hcontra; cases hcontra)
                have hdit : ∀ d ∈ declsV (.vitem it), d ∈ declTable am krate := by
                  intro d hd
                  refine List.mem_append.2 (Or.inr ?_)
                  refine List.mem_flatten.2 ⟨declsOfAstNode (.nodeItem it), ?_, ?_⟩
                  · exact List.mem_map.2 ⟨(did.node, .nodeItem it),
                      lookup_mem am did.node _ hti, rfl⟩
                  · simpa [declsOfAstNode] using hd
                exact hseq (.vitem it) (.vexprs subs) s h1 h2 hdit hdsubs hm
              · have hti : List.lookup did.node am = some (.nodeTraitItem ti) :=
                  lookup_of_get am did.node _ hget (by intro str hcontra; cases hcontra)
                have hdit : ∀ d ∈ declsV (.vtraitItem ti), d ∈ declTable am krate := by
                  intro d hd
                  refine List.mem_append.2 (Or.inr ?_)
                  refine List.mem_flatten.2 ⟨declsOfAstNode (.nodeTraitItem ti), ?_, ?_⟩
                  · exact List.mem_map.2 ⟨(did.node, .nodeTraitItem ti),
                      lookup_mem am did.node _ hti, rfl⟩
                  · simpa [declsOfAstNode] using hd
                exact hseq (.vtraitItem ti) (.vexprs subs) s h1 h2 hdit hdsubs hm
              · have hti : List.lookup did.node am = some (.nodeImplItem ii) :=
                  lookup_of_get am did.node _ hget (by intro str hcontra; cases hcontra)
                have hdit : ∀ d ∈ declsV (.vimplItem ii), d ∈ declTable am krate := by
                  intro d hd
                  refine List.mem_append.2 (Or.inr ?_)
                  refine List.mem_flatten.2 ⟨declsOfAstNode (.nodeImplItem ii), ?_, ?_⟩
                  · exact List.mem_map.2 ⟨(did.node, .nodeImplItem ii),
                      lookup_mem am did.node _ hti, rfl⟩
                  · simpa [declsOfAstNode] using hd
                exact hseq (.vimplItem ii) (.vexprs subs) s h1 h2 hdit hdsubs hm
              · exact ih _ s h1 h2 hdsubs hm
              · exact hm
            · simp only [CheckItemRecursionVisitor.visit, hlk, hloc]
              simp only [Bool.false_eq_true, if_false]
              exact ih _ s h1 h2 hdsubs hm
          · simp only [CheckItemRecursionVisitor.visit, hlk]
            exact ih _ s h1 h2 hdsubs hm
      · simp only [CheckItemRecursionVisitor.visit]
        exact hseq (.vitems its) (.vexprs subs) s h1 h2
          (fun d hd => hdecls d (by
            simp only [declsV]
            exact List.mem_append.2 (Or.inl hd)))
          (fun d hd => hdecls d (by
            simp only [declsV]
            exact List.mem_append.2 (Or.inr hd)))
          hm
    · rcases l with _ | ⟨i, r⟩
      · exact hm
      · simp only [CheckItemRecursionVisitor.visit]
        exact hseq (.vitem i) (.vitems r) s h1 h2
          (fun d hd => hdecls d (by
            simp only [declsV]
            exact List.mem_append.2 (Or.inl hd)))
          (fun d hd => hdecls d (by
            simp only [declsV]
            exact List.mem_append.2 (Or.inr hd)))
          hm
    · rcases l with _ | ⟨i, r⟩
      · exact hm
      · simp only [CheckItemRecursionVisitor.visit]
        exact hseq (.vtraitItem i) (.vtraitItems r) s h1 h2
          (fun d hd => hdecls d (by
            simp only [declsV]
            exact List.mem_append.2 (Or.inl hd)))
          (fun d hd => hdecls d (by
            simp only [declsV]
            exact List.mem_append.2 (Or.inr hd)))
          hm
    · rcases l with _ | ⟨i, r⟩
      · exact hm
      · simp only [CheckItemRecursionVisitor.visit]
        exact hseq (.vimplItem i) (.vimplItems r) s h1 h2
          (fun d hd => hdecls d (by
            simp only [declsV]
            exact List.mem_append.2 (Or.inl hd)))
          (fun d hd => hdecls d (by
            simp only [declsV]
            exact List.mem_append.2 (Or.inr hd)))
          hm
    · rcases l with _ | ⟨i, r⟩
      · exact hm
      · simp only [CheckItemRecursionVisitor.visit]
        exact hseq (.vexpr i) (.vexprs r) s h1 h2
          (fun d hd => hdecls d (by
            simp only [declsV]
            exact List.mem_append.2 (Or.inl hd)))
          (fun d hd => hdecls d (by
            simp only [declsV]
            exact List.mem_append.2 (Or.inr hd)))
          hm

theorem crate_maxDepth_le (dm : DefMap) (am : AstMap) (krate : List Item) :
    ∀ (f : Nat) (v : VNode) (s : VisitState),
      (∀ d ∈ declsV v, d ∈ declTable am krate) →
      s.maxDepth ≤ numDecls am krate →
      (CheckCrateVisitor.visit dm am f v s).maxDepth ≤ numDecls am krate := by
  intro f
  induction f with
  | zero => intro v s _ hm; exact hm
  | succ f ih =>
    intro v s hdecls hm
    have hroot : ∀ (rv : VNode) (rsp : Nat) (s' : VisitState),
        (∀ d ∈ declsV rv, d ∈ declTable am krate) →
        s'.maxDepth ≤ numDecls am krate →
        (CheckItemRecursionVisitor.visit dm am rsp f rv
          { s' with idstack := [] }).maxDepth ≤ numDecls am krate := by
      intro rv rsp s' hd hm'
      refine visit_maxDepth_le dm am krate rsp f rv { s' with idstack := [] } ?_ ?_ hd hm'
      · exact List.nodup_nil
      · intro x hx
        simp at hx
    rcases v with ⟨id, sp, node⟩ | ⟨id, sp, node⟩ | ⟨id, sp, node⟩ | e | l | l | l | l
    · cases node with
      | itemStatic init =>
        simp only [CheckCrateVisitor.visit]
        exact ih (.vexpr init) _ (fun d hd => hdecls d (by simp [declsV]; exact Or.inr hd))
          (hroot (.vitem (.mk id sp (.itemStatic init))) sp s hdecls hm)
      | itemConst init =>
        simp only [CheckCrateVisitor.visit]
        exact ih (.vexpr init) _ (fun d hd => hdecls d (by simp [declsV]; exact Or.inr hd))
          (hroot (.vitem (.mk id sp (.itemConst init))) sp s hdecls hm)
      | itemTrait tis =>
        simp only [CheckCrateVisitor.visit]
        exact ih (.vtraitItems tis) s
          (fun d hd => hdecls d (by simp [declsV]; exact Or.inr hd)) hm
      | itemImpl iis =>
        simp only [CheckCrateVisitor.visit]
        exact ih (.vimplItems iis) s
          (fun d hd => hdecls d (by simp [declsV]; exact Or.inr hd)) hm
      | itemOther its es =>
        simp only [CheckCrateVisitor.visit]
        exact ih (.vexprs es) _
          (fun d hd => hdecls d (by simp [declsV]; exact Or.inr (Or.inr hd)))
          (ih (.vitems its) s
            (fun d hd => hdecls d (by simp [declsV]; exact Or.inr (Or.inl hd))) hm)
    · rcases node with ⟨_ | e⟩ | es
      · exact hm
      · simp only [CheckCrateVisitor.visit]
        exact ih (.vexpr e) _ (fun d hd => hdecls d (by simp [declsV]; exact Or.inr hd))
          (hroot (.vtraitItem (.mk id sp (.constTraitItem (some e)))) sp s hdecls hm)
      · simp only [CheckCrateVisitor.visit]
        exact ih (.vexprs es) s
          (fun d hd => hdecls d (by simp [declsV]; exact Or.inr hd)) hm
    · rcases node with e | es
      · simp only [CheckCrateVisitor.visit]
        exact ih (.vexpr e) _ (fun d hd => hdecls d (by simp [declsV]; exact Or.inr hd))
          (hroot (.vimplItem (.mk id sp (.constImplItem e))) sp s hdecls hm)
      · simp only [CheckCrateVisitor.visit]
        exact ih (.vexprs es) s
          (fun d hd => hdecls d (by simp [declsV]; exact Or.inr hd)) hm
    · rcases e with ⟨eid, espan, subs⟩ | ⟨eid, espan, subs, its⟩
      · simp only [CheckCrateVisitor.visit]
        exact ih (.vexprs subs) s (fun d hd => hdecls d (by simpa [declsV] using hd)) hm
      · simp only [CheckCrateVisitor.visit]
        exact ih (.vexprs subs) _
          (fun d hd => hdecls d (by
            simp only [declsV]
            exact List.mem_append.2 (Or.inr hd)))
          (ih (.vitems its) s
            (fun d hd => hdecls d (by
              simp only [declsV]
              exact List.mem_append.2 (Or.inl hd)))
            hm)
    · rcases l with _ | ⟨i, r⟩
      · exact hm
      · simp only [CheckCrateVisitor.visit]
        exact ih (.vitems r) _
          (fun d hd => hdecls d (by
            simp only [declsV]
            exact List.mem_append.2 (Or.inr hd)))
          (ih (.vitem i) s
            (fun d hd => hdecls d (by
              simp only [declsV]
              exact List.mem_append.2 (Or.inl hd)))
            hm)
    · rcases l with _ | ⟨i, r⟩
      · exact hm
      · simp only [CheckCrateVisitor.visit]
        exact ih (.vtraitItems r) _
          (fun d hd => hdecls d (by
            simp only [declsV]
            exact List.mem_append.2 (Or.inr hd)))
          (ih (.vtraitItem i) s
            (fun d hd => hdecls d (by
              simp only [declsV]
              exact List.mem_append.2 (Or.inl hd)))
            hm)
    · rcases l with _ | ⟨i, r⟩
      · exact hm
      · simp only [CheckCrateVisitor.visit]
        exact ih (.vimplItems r) _
          (fun d hd => hdecls d (by
            simp only [declsV]
            exact List.mem_append.2 (Or.inr hd)))
          (ih (.vimplItem i) s
            (fun d hd => hdecls d (by
              simp only [declsV]
              exact List.mem_append.2 (Or.inl hd)))
            hm)
    · rcases l with _ | ⟨i, r⟩
      · exact hm
      · simp only [CheckCrateVisitor.visit]
        exact ih (.vexprs r) _
          (fun d hd => hdecls d (by
            simp only [declsV]
            exact List.mem_append.2 (Or.inr hd)))
          (ih (.vexpr i) s
            (fun d hd => hdecls d (by
              simp only [declsV]
              exact List.mem_append.2 (Or.inl hd)))
            hm)

theorem with_item_id_pushed_fuelOut (am : AstMap) (krate : List Item) (rsp id : Nat)
    (g : VisitState → VisitState) (s : VisitState)
    (h1 : s.idstack.Nodup) (h2 : ∀ x ∈ s.idstack, x ∈ declIds am krate)
    (hid : id ∈ declIds am krate)
    (hg : ∀ s', s'.idstack.Nodup → (∀ x ∈ s'.idstack, x ∈ declIds am krate) →
      s'.idstack.length = s.idstack.length + 1 →
      s.idstack.length < numDecls am krate →
      s'.fuelOut = s.fuelOut → (g s').fuelOut = s.fuelOut) :
    (with_item_id_pushed rsp id g s).fuelOut = s.fuelOut := by
  simp only [with_item_id_pushed]
  split
  · rfl
  · rename_i hcond
    have hmem : id ∉ s.idstack := by simpa using hcond
    have hnd : (id :: s.idstack).Nodup := List.nodup_cons.2 ⟨hmem, h1⟩
    have hsub : ∀ x ∈ id :: s.idstack, x ∈ declIds am krate := by
      intro x hx
      rcases List.mem_cons.1 hx with rfl | hx'
      · exact hid
      · exact h2 x hx'
    have hlen : (id :: s.idstack).length ≤ numDecls am krate :=
      nodup_subset_length_le _ am krate hnd hsub
    exact hg { s with idstack := id :: s.idstack,
                      consults := s.consults ++ [(id, s.idstack)],
                      maxDepth := max s.maxDepth (s.idstack.length + 1) }
      hnd hsub (by simp) (by simp at hlen; omega) rfl

set_option maxHeartbeats 3200000 in
set_option maxRecDepth 8000 in
theorem visit_fuel_enough (dm : DefMap) (am : AstMap) (krate : List Item) (rsp : Nat) :
    ∀ (f : Nat) (v : VNode) (s : VisitState),
      s.idstack.Nodup → (∀ x ∈ s.idstack, x ∈ declIds am krate) →
      (∀ d ∈ declsV v, d ∈ declTable am krate) →
      fuelNeed am krate v s.idstack.length ≤ f →
      (CheckItemRecursionVisitor.visit dm am rsp f v s).fuelOut = s.fuelOut := by
  intro f
  induction f with
  | zero =>
    intro v s _ _ _ hf
    have := fuelNeed_pos am krate v s.idstack.length
    omega
  | succ f ih =>
    intro v s h1 h2 hdecls hf
    rcases v with ⟨id, sp, node⟩ | ⟨id, sp, node⟩ | ⟨id, sp, node⟩ | e | l | l | l | l
    · have hd0 : Decl.item (.mk id sp node) ∈ declTable am krate :=
        hdecls _ (by cases node <;> simp [declsV])
      have hid : id ∈ declIds am krate := declId_mem_declIds am krate _ hd0
      cases node with
      | itemStatic init =>
        refine with_item_id_pushed_fuelOut am krate rsp id _ s h1 h2 hid ?_
        intro s' hn hsub hlen1 hKlt hfo
        simp only [fuelNeed] at hf
        rw [if_pos hKlt] at hf
        have hisz : vsize (VNode.vexpr init) ≤ maxISZ am krate :=
          declISZ_le_maxISZ am krate (Decl.item (.mk id sp (.itemStatic init))) hd0
        have hfe : fuelNeed am krate (.vexpr init) s'.idstack.length ≤ f := by
          simp only [fuelNeed]
          rw [hlen1, show numDecls am krate - (s.idstack.length + 1) =
            numDecls am krate - s.idstack.length - 1 from by omega]
          omega
        rw [ih (.vexpr init) s' hn hsub
          (fun d hd => hdecls d (by simp [declsV]; exact Or.inr hd)) hfe]
        exact hfo
      | itemConst init =>
        refine with_item_id_pushed_fuelOut am krate rsp id _ s h1 h2 hid ?_
        intro s' hn hsub hlen1 hKlt hfo
        simp only [fuelNeed] at hf
        rw [if_pos hKlt] at hf
        have hisz : vsize (VNode.vexpr init) ≤ maxISZ am krate :=
          declISZ_le_maxISZ am krate (Decl.item (.mk id sp (.itemConst init))) hd0
        have hfe : fuelNeed am krate (.vexpr init) s'.idstack.length ≤ f := by
          simp only [fuelNeed]
          rw [hlen1, show numDecls am krate - (s.idstack.length + 1) =
            numDecls am krate - s.idstack.length - 1 from by omega]
          omega
        rw [ih (.vexpr init) s' hn hsub
          (fun d hd => hdecls d (by simp [declsV]; exact Or.inr hd)) hfe]
        exact hfo
      | itemTrait tis =>
        refine with_item_id_pushed_fuelOut am krate rsp id _ s h1 h2 hid ?_
        intro s' hn hsub hlen1 hKlt hfo
        simp only [fuelNeed] at hf
        rw [if_pos hKlt] at hf
        have hisz : vsize (VNode.vtraitItems tis) ≤ maxISZ am krate :=
          declISZ_le_maxISZ am krate (Decl.item (.mk id sp (.itemTrait tis))) hd0
        have hfe : fuelNeed am krate (.vtraitItems tis) s'.idstack.length ≤ f := by
          simp only [fuelNeed]
          rw [hlen1, show numDecls am krate - (s.idstack.length + 1) =
            numDecls am krate - s.idstack.length - 1 from by omega]
          omega
        rw [ih (.vtraitItems tis) s' hn hsub
          (fun d hd => hdecls d (by simp [declsV]; exact Or.inr hd)) hfe]
        exact hfo
      | itemImpl iis =>
        refine with_item_id_pushed_fuelOut am krate rsp id _ s h1 h2 hid ?_
        intro s' hn hsub hlen1 hKlt hfo
        simp only [fuelNeed] at hf
        rw [if_pos hKlt] at hf
        have hisz : vsize (VNode.vimplItems iis) ≤ maxISZ am krate :=
          declISZ_le_maxISZ am krate (Decl.item (.mk id sp (.itemImpl iis))) hd0
        have hfe : fuelNeed am krate (.vimplItems iis) s'.idstack.length ≤ f := by
          simp only [fuelNeed]
          rw [hlen1, show numDecls am krate - (s.idstack.length + 1) =
            numDecls am krate - s.idstack.length - 1 from by omega]
          omega
        rw [ih (.vimplItems iis) s' hn hsub
          (fun d hd => hdecls d (by simp [declsV]; exact Or.inr hd)) hfe]
        exact hfo
      | itemOther its es =>
        refine with_item_id_pushed_fuelOut am krate rsp id _ s h1 h2 hid ?_
        intro s' hn hsub hlen1 hKlt hfo
        simp only [fuelNeed] at hf
        rw [if_pos hKlt] at hf
        have hiszm : max (vsize (VNode.vitems its)) (vsize (VNode.vexprs es)) ≤
            maxISZ am krate :=
          declISZ_le_maxISZ am krate (Decl.item (.mk id sp (.itemOther its es))) hd0
        have hisz1 : vsize (VNode.vitems its) ≤ maxISZ am krate :=
          le_trans (le_max_left _ _) hiszm
        have hisz2 : vsize (VNode.vexprs es) ≤ maxISZ am krate :=
          le_trans (le_max_right _ _) hiszm
        have hfe1 : fuelNeed am krate (.vitems its) s'.idstack.length ≤ f := by
          simp only [fuelNeed]
          rw [hlen1, show numDecls am krate - (s.idstack.length + 1) =
            numDecls am krate - s.idstack.length - 1 from by omega]
          omega
        have hfe2 : fuelNeed am krate (.vexprs es) s'.idstack.length ≤ f := by
          simp only [fuelNeed]
          rw [hlen1, show numDecls am krate - (s.idstack.length + 1) =
            numDecls am krate - s.idstack.length - 1 from by omega]
          omega
        rw [ih (.vexprs es) _ (by rw [visit_idstack_eq]; exact hn)
          (by rw [visit_idstack_eq]; exact hsub)
          (fun d hd => hdecls d (by simp [declsV]; exact Or.inr (Or.inr hd)))
          (by rw [visit_idstack_eq]; exact hfe2)]
        rw [ih (.vitems its) s' hn hsub
          (fun d hd => hdecls d (by simp [declsV]; exact Or.inr (Or.inl hd))) hfe1]
        exact hfo
    · have hd0 : Decl.traitItem (.mk id sp node) ∈ declTable am krate :=
        hdecls _ (by rcases node with ⟨_ | _⟩ | _ <;> simp [declsV])
      have hid : id ∈ declIds am krate := declId_mem_declIds am krate _ hd0
      rcases node with ⟨_ | e⟩ | es
      · refine with_item_id_pushed_fuelOut am krate rsp id _ s h1 h2 hid ?_
        intro s' _ _ _ _ hfo
        exact hfo
      · refine with_item_id_pushed_fuelOut am krate rsp id _ s h1 h2 hid ?_
        intro s' hn hsub hlen1 hKlt hfo
        simp only [fuelNeed] at hf
        rw [if_pos hKlt] at hf
        have hisz : vsize (VNode.vexpr e) ≤ maxISZ am krate :=
          declISZ_le_maxISZ am krate (Decl.traitItem (.mk id sp (.constTraitItem (some e)))) hd0
        have hfe : fuelNeed am krate (.vexpr e) s'.idstack.length ≤ f := by
          simp only [fuelNeed]
          rw [hlen1, show numDecls am krate - (s.idstack.length + 1) =
            numDecls am krate - s.idstack.length - 1 from by omega]
          omega
        rw [ih (.vexpr e) s' hn hsub
          (fun d hd => hdecls d (by simp [declsV]; exact Or.inr hd)) hfe]
        exact hfo
      · refine with_item_id_pushed_fuelOut am krate rsp id _ s h1 h2 hid ?_
        intro s' hn hsub hlen1 hKlt hfo
        simp only [fuelNeed] at hf
        rw [if_pos hKlt] at hf
        have hisz : vsize (VNode.vexprs es) ≤ maxISZ am krate :=
          declISZ_le_maxISZ am krate (Decl.traitItem (.mk id sp (.otherTraitItem es))) hd0
        have hfe : fuelNeed am krate (.vexprs es) s'.idstack.length ≤ f := by
          simp only [fuelNeed]
          rw [hlen1, show numDecls am krate - (s.idstack.length + 1) =
            numDecls am krate - s.idstack.length - 1 from by omega]
          omega
        rw [ih (.vexprs es) s' hn hsub
          (fun d hd => hdecls d (by simp [declsV]; exact Or.inr hd)) hfe]
        exact hfo
    · have hd0 : Decl.implItem (.mk id sp node) ∈ declTable am krate :=
        hdecls _ (by cases node <;> simp [declsV])
      have hid : id ∈ declIds am krate := declId_mem_declIds am krate _ hd0
      rcases node with e | es
      · refine with_item_id_pushed_fuelOut am krate rsp id _ s h1 h2 hid ?_
        intro s' hn hsub hlen1 hKlt hfo
        simp only [fuelNeed] at hf
        rw [if_pos hKlt] at hf
        have hisz : vsize (VNode.vexpr e) ≤ maxISZ am krate :=
          declISZ_le_maxISZ am krate (Decl.implItem (.mk id sp (.constImplItem e))) hd0
        have hfe : fuelNeed am krate (.vexpr e) s'.idstack.length ≤ f := by
          simp only [fuelNeed]
          rw [hlen1, show numDecls am krate - (s.idstack.length + 1) =
            numDecls am krate - s.idstack.length - 1 from by omega]
          omega
        rw [ih (.vexpr e) s' hn hsub
          (fun d hd => hdecls d (by simp [declsV]; exact Or.inr hd)) hfe]
        exact hfo
      · refine with_item_id_pushed_fuelOut am krate rsp id _ s h1 h2 hid ?_
        intro s' hn hsub hlen1 hKlt hfo
        simp only [fuelNeed] at hf
        rw [if_pos hKlt] at hf
        have hisz : vsize (VNode.vexprs es) ≤ maxISZ am krate :=
          declISZ_le_maxISZ am krate (Decl.implItem (.mk id sp (.otherImplItem es))) hd0
        have hfe : fuelNeed am krate (.vexprs es) s'.idstack.length ≤ f := by
          simp only [fuelNeed]
          rw [hlen1, show numDecls am krate - (s.idstack.length + 1) =
            numDecls am krate - s.idstack.length - 1 from by omega]
          omega
        rw [ih (.vexprs es) s' hn hsub
          (fun d hd => hdecls d (by simp [declsV]; exact Or.inr hd)) hfe]
        exact hfo
    · rcases e with ⟨eid, espan, subs⟩ | ⟨eid, espan, subs, its⟩
      · have hdsubs : ∀ d ∈ declsV (.vexprs subs), d ∈ declTable am krate :=
          fun d hd => hdecls d (by simpa [declsV] using hd)
        rcases hlk : List.lookup eid dm with _ | d'
        · simp only [CheckItemRecursionVisitor.visit, hlk]
          exact ih _ s h1 h2 hdsubs (by
            simp only [fuelNeed] at hf ⊢
            simp only [vsize] at hf
            omega)
        · simp only [fuelNeed] at hf
          simp only [vsize] at hf
          rcases d' with ⟨did, mutbl⟩ | did | ⟨did, prov⟩ | _
          · by_cases hloc : is_local did = true
            · rcases hget : am.get did.node with it | ti | ii | _ | descr <;>
                simp only [CheckItemRecursionVisitor.visit, hlk, hloc, hget, if_true]
              · have hti : List.lookup did.node am = some (.nodeItem it) :=
                  lookup_of_get am did.node _ hget (by intro str hcontra; cases hcontra)
                have hdit : ∀ d ∈ declsV (.vitem it), d ∈ declTable am krate := by
                  intro d hd
                  refine List.mem_append.2 (Or.inr ?_)
                  refine List.mem_flatten.2 ⟨declsOfAstNode (.nodeItem it), ?_, ?_⟩
                  · exact List.mem_map.2 ⟨(did.node, .nodeItem it),
                      lookup_mem am did.node _ hti, rfl⟩
                  · simpa [declsOfAstNode] using hd
                have hct : fuelNeed am krate (.vitem it) s.idstack.length ≤ f := by
                  simp only [fuelNeed]
                  split
                  · rename_i hKlt
                    have hCval : stepCost am krate = maxISZ am krate + 3 := rfl
                    have hsplit : (numDecls am krate - s.idstack.length) * stepCost am krate =
                        (numDecls am krate - s.idstack.length - 1) * stepCost am krate +
                          stepCost am krate := by
                      conv_lhs => rw [show numDecls am krate - s.idstack.length =
                        (numDecls am krate - s.idstack.length - 1) + 1 from by omega]
                      rw [Nat.succ_mul]
                    omega
                  · omega
                have hcs : fuelNeed am krate (.vexprs subs) s.idstack.length ≤ f := by
                  simp only [fuelNeed]
                  omega
                rw [ih (.vexprs subs) _ (by rw [visit_idstack_eq]; exact h1)
                  (by rw [visit_idstack_eq]; exact h2) hdsubs
                  (by rw [visit_idstack_eq]; exact hcs)]
                rw [ih (.vitem it) s h1 h2 hdit hct]
              · have hti : List.lookup did.node am = some (.nodeTraitItem ti) :=
                  lookup_of_get am did.node _ hget (by intro str hcontra; cases hcontra)
                have hdit : ∀ d ∈ declsV (.vtraitItem ti), d ∈ declTable am krate := by
                  intro d hd
                  refine List.mem_append.2 (Or.inr ?_)
                  refine List.mem_flatten.2 ⟨declsOfAstNode (.nodeTraitItem ti), ?_, ?_⟩
                  · exact List.mem_map.2 ⟨(did.node, .nodeTraitItem ti),
                      lookup_mem am did.node _ hti, rfl⟩
                  · simpa [declsOfAstNode] using hd
                have hct : fuelNeed am krate (.vtraitItem ti) s.idstack.length ≤ f := by
                  simp only [fuelNeed]
                  split
                  · rename_i hKlt
                    have hCval : stepCost am krate = maxISZ am krate + 3 := rfl
                    have hsplit : (numDecls am krate - s.idstack.length) * stepCost am krate =
                        (numDecls am krate - s.idstack.length - 1) * stepCost am krate +
                          stepCost am krate := by
                      conv_lhs => rw [show numDecls am krate - s.idstack.length =
                        (numDecls am krate - s.idstack.length - 1) + 1 from by omega]
                      rw [Nat.succ_mul]
                    omega
                  · omega
                have hcs : fuelNeed am krate (.vexprs subs) s.idstack.length ≤ f := by
                  simp only [fuelNeed]
                  omega
                rw [ih (.vexprs subs) _ (by rw [visit_idstack_eq]; exact h1)
                  (by rw [visit_idstack_eq]; exact h2) hdsubs
                  (by rw [visit_idstack_eq]; exact hcs)]
                rw [ih (.vtraitItem ti) s h1 h2 hdit hct]
              · have hti : List.lookup did.node am = some (.nodeImplItem ii) :=
                  lookup_of_get am did.node _ hget (by intro str hcontra; cases hcontra)
                have hdit : ∀ d ∈ declsV (.vimplItem ii), d ∈ declTable am krate := by
                  intro d hd
                  refine List.mem_append.2 (Or.inr ?_)
                  refine List.mem_flatten.2 ⟨declsOfAstNode (.nodeImplItem ii), ?_, ?_⟩
                  · exact List.mem_map.2 ⟨(did.node, .nodeImplItem ii),
                      lookup_mem am did.node _ hti, rfl⟩
                  · simpa [declsOfAstNode] using hd
                have hct : fuelNeed am krate (.vimplItem ii) s.idstack.length ≤ f := by
                  simp only [fuelNeed]
                  split
                  · rename_i hKlt
                    have hCval : stepCost am krate = maxISZ am krate + 3 := rfl
                    have hsplit : (numDecls am krate - s.idstack.length) * stepCost am krate =
                        (numDecls am krate - s.idstack.length - 1) * stepCost am krate +
                          stepCost am krate := by
                      conv_lhs => rw [show numDecls am krate - s.idstack.length =
                        (numDecls am krate - s.idstack.length - 1) + 1 from by omega]
                      rw [Nat.succ_mul]
                    omega
                  · omega
                have hcs : fuelNeed am krate (.vexprs subs) s.idstack.length ≤ f := by
                  simp only [fuelNeed]
                  omega
                rw [ih (.vexprs subs) _ (by rw [visit_idstack_eq]; exact h1)
                  (by rw [visit_idstack_eq]; exact h2) hdsubs
                  (by rw [visit_idstack_eq]; exact hcs)]
                rw [ih (.vimplItem ii) s h1 h2 hdit hct]
              · exact ih _ s h1 h2 hdsubs (by
                  simp only [fuelNeed]
                  omega)
            · simp only [CheckItemRecursionVisitor.visit, hlk, hloc]
              simp only [Bool.false_eq_true, if_false]
              exact ih _ s h1 h2 hdsubs (by
                simp only [fuelNeed]
                omega)
          · by_cases hloc : is_local did = true
            · rcases hget : am.get did.node with it | ti | ii | _ | descr <;>
                simp only [CheckItemRecursionVisitor.visit, hlk, hloc, hget, if_true]
              · have hti : List.lookup did.node am = some (.nodeItem it) :=
                  lookup_of_get am did.node _ hget (by intro str hcontra; cases hcontra)
                have hdit : ∀ d ∈ declsV (.vitem it), d ∈ declTable am krate := by
                  intro d hd
                  refine List.mem_append.2 (Or.inr ?_)
                  refine List.mem_flatten.2 ⟨declsOfAstNode (.nodeItem it), ?_, ?_⟩
                  · exact List.mem_map.2 ⟨(did.node, .nodeItem it),
                      lookup_mem am did.node _ hti, rfl⟩
                  · simpa [declsOfAstNode] using hd
                have hct : fuelNeed am krate (.vitem it) s.idstack.length ≤ f := by
                  simp only [fuelNeed]
                  split
                  · rename_i hKlt
                    have hCval : stepCost am krate = maxISZ am krate + 3 := rfl
                    have hsplit : (numDecls am krate - s.idstack.length) * stepCost am krate =
                        (numDecls am krate - s.idstack.length - 1) * stepCost am krate +
                          stepCost am krate := by
                      conv_lhs => rw [show numDecls am krate - s.idstack.length =
                        (numDecls am krate - s.idstack.length - 1) + 1 from by omega]
                      rw [Nat.succ_mul]
                    omega
                  · omega
                have hcs : fuelNeed am krate (.vexprs subs) s.idstack.length ≤ f := by
                  simp only [fuelNeed]
                  omega
                rw [ih (.vexprs subs) _ (by rw [visit_idstack_eq]; exact h1)
                  (by rw [visit_idstack_eq]; exact h2) hdsubs
                  (by rw [visit_idstack_eq]; exact hcs)]
                rw [ih (.vitem it) s h1 h2 hdit hct]
              · have hti : List.lookup did.node am = some (.nodeTraitItem ti) :=
                  lookup_of_get am did.node _ hget (by intro str hcontra; cases hcontra)
                have hdit : ∀ d ∈ declsV (.vtraitItem ti), d ∈ declTable am krate := by
                  intro d hd
                  refine List.mem_append.2 (Or.inr ?_)
                  refine List.mem_flatten.2 ⟨declsOfAstNode (.nodeTraitItem ti), ?_, ?_⟩
                  · exact List.mem_map.2 ⟨(did.node, .nodeTraitItem ti),
                      lookup_mem am did.node _ hti, rfl⟩
                  · simpa [declsOfAstNode] using hd
                have hct : fuelNeed am krate (.vtraitItem ti) s.idstack.length ≤ f := by
                  simp only [fuelNeed]
                  split
                  · rename_i hKlt
                    have hCval : stepCost am krate = maxISZ am krate + 3 := rfl
                    have hsplit : (numDecls am krate - s.idstack.length) * stepCost am krate =
                        (numDecls am krate - s.idstack.length - 1) * stepCost am krate +
                          stepCost am krate := by
                      conv_lhs => rw [show numDecls am krate - s.idstack.length =
                        (numDecls am krate - s.idstack.length - 1) + 1 from by omega]
                      rw [Nat.succ_mul]
                    omega
                  · omega
                have hcs : fuelNeed am krate (.vexprs subs) s.idstack.length ≤ f := by
                  simp only [fuelNeed]
                  omega
                rw [ih (.vexprs subs) _ (by rw [visit_idstack_eq]; exact h1)
                  (by rw [visit_idstack_eq]; exact h2) hdsubs
                  (by rw [visit_idstack_eq]; exact hcs)]
                rw [ih (.vtraitItem ti) s h1 h2 hdit hct]
              · have hti : List.lookup did.node am = some (.nodeImplItem ii) :=
                  lookup_of_get am did.node _ hget (by intro str hcontra; cases hcontra)
                have hdit : ∀ d ∈ declsV (.vimplItem ii), d ∈ declTable am krate := by
                  intro d hd
                  refine List.mem_append.2 (Or.inr ?_)
                  refine List.mem_flatten.2 ⟨declsOfAstNode (.nodeImplItem ii), ?_, ?_⟩
                  · exact List.mem_map.2 ⟨(did.node, .nodeImplItem ii),
                      lookup_mem am did.node _ hti, rfl⟩
                  · simpa [declsOfAstNode] using hd
                have hct : fuelNeed am krate (.vimplItem ii) s.idstack.length ≤ f := by
                  simp only [fuelNeed]
                  split
                  · rename_i hKlt
                    have hCval : stepCost am krate = maxISZ am krate + 3 := rfl
                    have hsplit : (numDecls am krate - s.idstack.length) * stepCost am krate =
                        (numDecls am krate - s.idstack.length - 1) * stepCost am krate +
                          stepCost am krate := by
                      conv_lhs => rw [show numDecls am krate - s.idstack.length =
                        (numDecls am krate - s.idstack.length - 1) + 1 from by omega]
                      rw [Nat.succ_mul]
                    omega
                  · omega
                have hcs : fuelNeed am krate (.vexprs subs) s.idstack.length ≤ f := by
                  simp only [fuelNeed]
                  omega
                rw [ih (.vexprs subs) _ (by rw [visit_idstack_eq]; exact h1)
                  (by rw [visit_idstack_eq]; exact h2) hdsubs
                  (by rw [visit_idstack_eq]; exact hcs)]
                rw [ih (.vimplItem ii) s h1 h2 hdit hct]
              · exact ih _ s h1 h2 hdsubs (by
                  simp only [fuelNeed]
                  omega)
            · simp only [CheckItemRecursionVisitor.visit, hlk, hloc]
              simp only [Bool.false_eq_true, if_false]
              exact ih _ s h1 h2 hdsubs (by
                simp only [fuelNeed]
                omega)
          · by_cases hloc : is_local did = true
            · rcases hget : am.get did.node with it | ti | ii | _ | descr <;>
                simp only [CheckItemRecursionVisitor.visit, hlk, hloc, hget, if_true]
              · have hti : List.lookup did.node am = some (.nodeItem it) :=
                  lookup_of_get am did.node _ hget (by intro str hcontra; cases hcontra)
                have hdit : ∀ d ∈ declsV (.vitem it), d ∈ declTable am krate := by
                  intro d hd
                  refine List.mem_append.2 (Or.inr ?_)
                  refine List.mem_flatten.2 ⟨declsOfAstNode (.nodeItem it), ?_, ?_⟩
                  · exact List.mem_map.2 ⟨(did.node, .nodeItem it),
                      lookup_mem am did.node _ hti, rfl⟩
                  · simpa [declsOfAstNode] using hd
                have hct : fuelNeed am krate (.vitem it) s.idstack.length ≤ f := by
                  simp only [fuelNeed]
                  split
                  · rename_i hKlt
                    have hCval : stepCost am krate = maxISZ am krate + 3 := rfl
                    have hsplit : (numDecls am krate - s.idstack.length) * stepCost am krate =
                        (numDecls am krate - s.idstack.length - 1) * stepCost am krate +
                          stepCost am krate := by
                      conv_lhs => rw [show numDecls am krate - s.idstack.length =
                        (numDecls am krate - s.idstack.length - 1) + 1 from by omega]
                      rw [Nat.succ_mul]
                    omega
                  · omega
                have hcs : fuelNeed am krate (.vexprs subs) s.idstack.length ≤ f := by
                  simp only [fuelNeed]
                  omega
                rw [ih (.vexprs subs) _ (by rw [visit_idstack_eq]; exact h1)
                  (by rw [visit_idstack_eq]; exact h2) hdsubs
                  (by rw [visit_idstack_eq]; exact hcs)]
                rw [ih (.vitem it) s h1 h2 hdit hct]
              · have hti : List.lookup did.node am = some (.nodeTraitItem ti) :=
                  lookup_of_get am did.node _ hget (by intro str hcontra; cases hcontra)
                have hdit : ∀ d ∈ declsV (.vtraitItem ti), d ∈ declTable am krate := by
                  intro d hd
                  refine List.mem_append.2 (Or.inr ?_)
                  refine List.mem_flatten.2 ⟨declsOfAstNode (.nodeTraitItem ti), ?_, ?_⟩
                  · exact List.mem_map.2 ⟨(did.node, .nodeTraitItem ti),
                      lookup_mem am did.node _ hti, rfl⟩
                  · simpa [declsOfAstNode] using hd
                have hct : fuelNeed am krate (.vtraitItem ti) s.idstack.length ≤ f := by
                  simp only [fuelNeed]
                  split
                  · rename_i hKlt
                    have hCval : stepCost am krate = maxISZ am krate + 3 := rfl
                    have hsplit : (numDecls am krate - s.idstack.length) * stepCost am krate =
                        (numDecls am krate - s.idstack.length - 1) * stepCost am krate +
                          stepCost am krate := by
                      conv_lhs => rw [show numDecls am krate - s.idstack.length =
                        (numDecls am krate - s.idstack.length - 1) + 1 from by omega]
                      rw [Nat.succ_mul]
                    omega
                  · omega
                have hcs : fuelNeed am krate (.vexprs subs) s.idstack.length ≤ f := by
                  simp only [fuelNeed]
                  omega
                rw [ih (.vexprs subs) _ (by rw [visit_idstack_eq]; exact h1)
                  (by rw [visit_idstack_eq]; exact h2) hdsubs
                  (by rw [visit_idstack_eq]; exact hcs)]
                rw [ih (.vtraitItem ti) s h1 h2 hdit hct]
              · have hti : List.lookup did.node am = some (.nodeImplItem ii) :=
                  lookup_of_get am did.node _ hget (by intro str hcontra; cases hcontra)
                have hdit : ∀ d ∈ declsV (.vimplItem ii), d ∈ declTable am krate := by
                  intro d hd
                  refine List.mem_append.2 (Or.inr ?_)
                  refine List.mem_flatten.2 ⟨declsOfAstNode (.nodeImplItem ii), ?_, ?_⟩
                  · exact List.mem_map.2 ⟨(did.node, .nodeImplItem ii),
                      lookup_mem am did.node _ hti, rfl⟩
                  · simpa [declsOfAstNode] using hd
                have hct : fuelNeed am krate (.vimplItem ii) s.idstack.length ≤ f := by
                  simp only [fuelNeed]
                  split
                  · rename_i hKlt
                    have hCval : stepCost am krate = maxISZ am krate + 3 := rfl
                    have hsplit : (numDecls am krate - s.idstack.length) * stepCost am krate =
                        (numDecls am krate - s.idstack.length - 1) * stepCost am krate +
                          stepCost am krate := by
                      conv_lhs => rw [show numDecls am krate - s.idstack.length =
                        (numDecls am krate - s.idstack.length - 1) + 1 from by omega]
                      rw [Nat.succ_mul]
                    omega
                  · omega
                have hcs : fuelNeed am krate (.vexprs subs) s.idstack.length ≤ f := by
                  simp only [fuelNeed]
                  omega
                rw [ih (.vexprs subs) _ (by rw [visit_idstack_eq]; exact h1)
                  (by rw [visit_idstack_eq]; exact h2) hdsubs
                  (by rw [visit_idstack_eq]; exact hcs)]
                rw [ih (.vimplItem ii) s h1 h2 hdit hct]
              · exact ih _ s h1 h2 hdsubs (by
                  simp only [fuelNeed]
                  omega)
            · simp only [CheckItemRecursionVisitor.visit, hlk, hloc]
              simp only [Bool.false_eq_true, if_false]
              exact ih _ s h1 h2 hdsubs (by
                simp only [fuelNeed]
                omega)
          · simp only [CheckItemRecursionVisitor.visit, hlk]
            exact ih _ s h1 h2 hdsubs (by
              simp only [fuelNeed]
              omega)
      · simp only [CheckItemRecursionVisitor.visit]
        simp only [fuelNeed] at hf
        simp only [vsize] at hf
        have hc1 : fuelNeed am krate (.vitems its) s.idstack.length ≤ f := by
          simp only [fuelNeed]
          omega
        have hc2 : fuelNeed am krate (.vexprs subs) s.idstack.length ≤ f := by
          simp only [fuelNeed]
          omega
        rw [ih (.vexprs subs) _ (by rw [visit_idstack_eq]; exact h1)
          (by rw [visit_idstack_eq]; exact h2)
          (fun d hd => hdecls d (by
            simp only [declsV]
            exact List.mem_append.2 (Or.inr hd)))
          (by rw [visit_idstack_eq]; exact hc2)]
        rw [ih (.vitems its) s h1 h2
          (fun d hd => hdecls d (by
            simp only [declsV]
            exact List.mem_append.2 (Or.inl hd)))
          hc1]
    · rcases l with _ | ⟨i, r⟩
      · rfl
      · simp only [CheckItemRecursionVisitor.visit]
        simp only [fuelNeed] at hf
        simp only [vsize] at hf
        have hc1 : fuelNeed am krate (.vitem i) s.idstack.length ≤ f := by
          simp only [fuelNeed]
          split
          · rename_i hKlt
            have hCval : stepCost am krate = maxISZ am krate + 3 := rfl
            have hsplit : (numDecls am krate - s.idstack.length) * stepCost am krate =
                (numDecls am krate - s.idstack.length - 1) * stepCost am krate +
                  stepCost am krate := by
              conv_lhs => rw [show numDecls am krate - s.idstack.length =
                (numDecls am krate - s.idstack.length - 1) + 1 from by omega]
              rw [Nat.succ_mul]
            omega
          · have := vsize_pos (VNode.vitem i)
            omega
        have hc2 : fuelNeed am krate (.vitems r) s.idstack.length ≤ f := by
          simp only [fuelNeed]
          omega
        rw [ih (.vitems r) _ (by rw [visit_idstack_eq]; exact h1)
          (by rw [visit_idstack_eq]; exact h2)
          (fun d hd => hdecls d (by
            simp only [declsV]
            exact List.mem_append.2 (Or.inr hd)))
          (by rw [visit_idstack_eq]; exact hc2)]
        rw [ih (.vitem i) s h1 h2
          (fun d hd => hdecls d (by
            simp only [declsV]
            exact List.mem_append.2 (Or.inl hd)))
          hc1]
    · rcases l with _ | ⟨i, r⟩
      · rfl
      · simp only [CheckItemRecursionVisitor.visit]
        simp only [fuelNeed] at hf
        simp only [vsize] at hf
        have hc1 : fuelNeed am krate (.vtraitItem i) s.idstack.length ≤ f := by
          simp only [fuelNeed]
          split
          · rename_i hKlt
            have hCval : stepCost am krate = maxISZ am krate + 3 := rfl
            have hsplit : (numDecls am krate - s.idstack.length) * stepCost am krate =
                (numDecls am krate - s.idstack.length - 1) * stepCost am krate +
                  stepCost am krate := by
              conv_lhs => rw [show numDecls am krate - s.idstack.length =
                (numDecls am krate - s.idstack.length - 1) + 1 from by omega]
              rw [Nat.succ_mul]
            omega
          · have := vsize_pos (VNode.vtraitItem i)
            omega
        have hc2 : fuelNeed am krate (.vtraitItems r) s.idstack.length ≤ f := by
          simp only [fuelNeed]
          omega
        rw [ih (.vtraitItems r) _ (by rw [visit_idstack_eq]; exact h1)
          (by rw [visit_idstack_eq]; exact h2)
          (fun d hd => hdecls d (by
            simp only [declsV]
            exact List.mem_append.2 (Or.inr hd)))
          (by rw [visit_idstack_eq]; exact hc2)]
        rw [ih (.vtraitItem i) s h1 h2
          (fun d hd => hdecls d (by
            simp only [declsV]
            exact List.mem_append.2 (Or.inl hd)))
          hc1]
    · rcases l with _ | ⟨i, r⟩
      · rfl
      · simp only [CheckItemRecursionVisitor.visit]
        simp only [fuelNeed] at hf
        simp only [vsize] at hf
        have hc1 : fuelNeed am krate (.vimplItem i) s.idstack.length ≤ f := by
          simp only [fuelNeed]
          split
          · rename_i hKlt
            have hCval : stepCost am krate = maxISZ am krate + 3 := rfl
            have hsplit : (numDecls am krate - s.idstack.length) * stepCost am krate =
                (numDecls am krate - s.idstack.length - 1) * stepCost am krate +
                  stepCost am krate := by
              conv_lhs => rw [show numDecls am krate - s.idstack.length =
                (numDecls am krate - s.idstack.length - 1) + 1 from by omega]
              rw [Nat.succ_mul]
            omega
          · have := vsize_pos (VNode.vimplItem i)
            omega
        have hc2 : fuelNeed am krate (.vimplItems r) s.idstack.length ≤ f := by
          simp only [fuelNeed]
          omega
        rw [ih (.vimplItems r) _ (by rw [visit_idstack_eq]; exact h1)
          (by rw [visit_idstack_eq]; exact h2)
          (fun d hd => hdecls d (by
            simp only [declsV]
            exact List.mem_append.2 (Or.inr hd)))
          (by rw [visit_idstack_eq]; exact hc2)]
        rw [ih (.vimplItem i) s h1 h2
          (fun d hd => hdecls d (by
            simp only [declsV]
            exact List.mem_append.2 (Or.inl hd)))
          hc1]
    · rcases l with _ | ⟨i, r⟩
      · rfl
      · simp only [CheckItemRecursionVisitor.visit]
        simp only [fuelNeed] at hf
        simp only [vsize] at hf
        have hc1 : fuelNeed am krate (.vexpr i) s.idstack.length ≤ f := by
          simp only [fuelNeed]
          omega
        have hc2 : fuelNeed am krate (.vexprs r) s.idstack.length ≤ f := by
          simp only [fuelNeed]
          omega
        rw [ih (.vexprs r) _ (by rw [visit_idstack_eq]; exact h1)
          (by rw [visit_idstack_eq]; exact h2)
          (fun d hd => hdecls d (by
            simp only [declsV]
            exact List.mem_append.2 (Or.inr hd)))
          (by rw [visit_idstack_eq]; exact hc2)]
        rw [ih (.vexpr i) s h1 h2
          (fun d hd => hdecls d (by
            simp only [declsV]
            exact List.mem_append.2 (Or.inl hd)))
          hc1]

set_option maxHeartbeats 1600000 in
theorem crate_fuel_enough (dm : DefMap) (am : AstMap) (krate : List Item) :
    ∀ (f : Nat) (v : VNode) (s : VisitState),
      (∀ d ∈ declsV v, d ∈ declTable am krate) →
      vsize v + numDecls am krate * stepCost am krate + 2 ≤ f →
      (CheckCrateVisitor.visit dm am f v s).fuelOut = s.fuelOut := by
  intro f
  induction f with
  | zero =>
    intro v s _ hf
    have := vsize_pos v
    omega
  | succ f ih =>
    intro v s hdecls hf
    rcases v with ⟨id, sp, node⟩ | ⟨id, sp, node⟩ | ⟨id, sp, node⟩ | e | l | l | l | l
    · cases node with
      | itemStatic init =>
        simp only [CheckCrateVisitor.visit]
        simp only [vsize] at hf
        have hd0 : Decl.item (.mk id sp (.itemStatic init)) ∈ declTable am krate :=
          hdecls _ (by simp [declsV])
        have hK1 : 1 ≤ numDecls am krate := numDecls_pos am krate _ hd0
        have hroot : fuelNeed am krate (.vitem (.mk id sp (.itemStatic init)))
            (List.length ([] : List Nat)) ≤ f := by
          simp only [fuelNeed, List.length_nil]
          split
          · have hCval : stepCost am krate = maxISZ am krate + 3 := rfl
            have hsplit : numDecls am krate * stepCost am krate =
                (numDecls am krate - 0 - 1) * stepCost am krate + stepCost am krate := by
              conv_lhs => rw [show numDecls am krate =
                (numDecls am krate - 0 - 1) + 1 from by omega]
              rw [Nat.succ_mul]
            omega
          · omega
        have hcont : vsize (VNode.vexpr init) + numDecls am krate * stepCost am krate + 2 ≤ f := by
          omega
        rw [ih (.vexpr init) _ (fun d hd => hdecls d (by simp [declsV]; exact Or.inr hd)) hcont]
        exact visit_fuel_enough dm am krate sp f (.vitem (.mk id sp (.itemStatic init)))
          { s with idstack := [] } List.nodup_nil (by intro x hx; simp at hx) hdecls hroot
      | itemConst init =>
        simp only [CheckCrateVisitor.visit]
        simp only [vsize] at hf
        have hd0 : Decl.item (.mk id sp (.itemConst init)) ∈ declTable am krate :=
          hdecls _ (by simp [declsV])
        have hK1 : 1 ≤ numDecls am krate := numDecls_pos am krate _ hd0
        have hroot : fuelNeed am krate (.vitem (.mk id sp (.itemConst init)))
            (List.length ([] : List Nat)) ≤ f := by
          simp only [fuelNeed, List.length_nil]
          split
          · have hCval : stepCost am krate = maxISZ am krate + 3 := rfl
            have hsplit : numDecls am krate * stepCost am krate =
                (numDecls am krate - 0 - 1) * stepCost am krate + stepCost am krate := by
              conv_lhs => rw [show numDecls am krate =
                (numDecls am krate - 0 - 1) + 1 from by omega]
              rw [Nat.succ_mul]
            omega
          · omega
        have hcont : vsize (VNode.vexpr init) + numDecls am krate * stepCost am krate + 2 ≤ f := by
          omega
        rw [ih (.vexpr init) _ (fun d hd => hdecls d (by simp [declsV]; exact Or.inr hd)) hcont]
        exact visit_fuel_enough dm am krate sp f (.vitem (.mk id sp (.itemConst init)))
          { s with idstack := [] } List.nodup_nil (by intro x hx; simp at hx) hdecls hroot
      | itemTrait tis =>
        simp only [CheckCrateVisitor.visit]
        simp only [vsize] at hf
        exact ih (.vtraitItems tis) s
          (fun d hd => hdecls d (by simp [declsV]; exact Or.inr hd)) (by omega)
      | itemImpl iis =>
        simp only [CheckCrateVisitor.visit]
        simp only [vsize] at hf
        exact ih (.vimplItems iis) s
          (fun d hd => hdecls d (by simp [declsV]; exact Or.inr hd)) (by omega)
      | itemOther its es =>
        simp only [CheckCrateVisitor.visit]
        simp only [vsize] at hf
        rw [ih (.vexprs es) _
          (fun d hd => hdecls d (by simp [declsV]; exact Or.inr (Or.inr hd)))
          (by omega)]
        rw [ih (.vitems its) s
          (fun d hd => hdecls d (by simp [declsV]; exact Or.inr (Or.inl hd)))
          (by omega)]
    · rcases node with ⟨_ | e⟩ | es
      · rfl
      · simp only [CheckCrateVisitor.visit]
        simp only [vsize] at hf
        have hd0 : Decl.traitItem (.mk id sp (.constTraitItem (some e))) ∈ declTable am krate :=
          hdecls _ (by simp [declsV])
        have hK1 : 1 ≤ numDecls am krate := numDecls_pos am krate _ hd0
        have hroot : fuelNeed am krate (.vtraitItem (.mk id sp (.constTraitItem (some e))))
            (List.length ([] : List Nat)) ≤ f := by
          simp only [fuelNeed, List.length_nil]
          split
          · have hCval : stepCost am krate = maxISZ am krate + 3 := rfl
            have hsplit : numDecls am krate * stepCost am krate =
                (numDecls am krate - 0 - 1) * stepCost am krate + stepCost am krate := by
              conv_lhs => rw [show numDecls am krate =
                (numDecls am krate - 0 - 1) + 1 from by omega]
              rw [Nat.succ_mul]
            omega
          · omega
        have hcont : vsize (VNode.vexpr e) + numDecls am krate * stepCost am krate + 2 ≤ f := by
          omega
        rw [ih (.vexpr e) _ (fun d hd => hdecls d (by simp [declsV]; exact Or.inr hd)) hcont]
        exact visit_fuel_enough dm am krate sp f (.vtraitItem (.mk id sp (.constTraitItem (some e))))
          { s with idstack := [] } List.nodup_nil (by intro x hx; simp at hx) hdecls hroot
      · simp only [CheckCrateVisitor.visit]
        simp only [vsize] at hf
        exact ih (.vexprs es) s
          (fun d hd => hdecls d (by simp [declsV]; exact Or.inr hd)) (by omega)
    · rcases node with e | es
      · simp only [CheckCrateVisitor.visit]
        simp only [vsize] at hf
        have hd0 : Decl.implItem (.mk id sp (.constImplItem e)) ∈ declTable am krate :=
          hdecls _ (by simp [declsV])
        have hK1 : 1 ≤ numDecls am krate := numDecls_pos am krate _ hd0
        have hroot : fuelNeed am krate (.vimplItem (.mk id sp (.constImplItem e)))
            (List.length ([] : List Nat)) ≤ f := by
          simp only [fuelNeed, List.length_nil]
          split
          · have hCval : stepCost am krate = maxISZ am krate + 3 := rfl
            have hsplit : numDecls am krate * stepCost am krate =
                (numDecls am krate - 0 - 1) * stepCost am krate + stepCost am krate := by
              conv_lhs => rw [show numDecls am krate =
                (numDecls am krate - 0 - 1) + 1 from by omega]
              rw [Nat.succ_mul]
            omega
          · omega
        have hcont : vsize (VNode.vexpr e) + numDecls am krate * stepCost am krate + 2 ≤ f := by
          omega
        rw [ih (.vexpr e) _ (fun d hd => hdecls d (by simp [declsV]; exact Or.inr hd)) hcont]
        exact visit_fuel_enough dm am krate sp f (.vimplItem (.mk id sp (.constImplItem e)))
          { s with idstack := [] } List.nodup_nil (by intro x hx; simp at hx) hdecls hroot
      · simp only [CheckCrateVisitor.visit]
        simp only [vsize] at hf
        exact ih (.vexprs es) s
          (fun d hd => hdecls d (by simp [declsV]; exact Or.inr hd)) (by omega)
    · rcases e with ⟨eid, espan, subs⟩ | ⟨eid, espan, subs, its⟩
      · simp only [CheckCrateVisitor.visit]
        simp only [vsize] at hf
        exact ih (.vexprs subs) s
          (fun d hd => hdecls d (by simpa [declsV] using hd)) (by omega)
      · simp only [CheckCrateVisitor.visit]
        simp only [vsize] at hf
        rw [ih (.vexprs subs) _
          (fun d hd => hdecls d (by
            simp only [declsV]
            exact List.mem_append.2 (Or.inr hd)))
          (by omega)]
        rw [ih (.vitems its) s
          (fun d hd => hdecls d (by
            simp only [declsV]
            exact List.mem_append.2 (Or.inl hd)))
          (by omega)]
    · rcases l with _ | ⟨i, r⟩
      · rfl
      · simp only [CheckCrateVisitor.visit]
        simp only [vsize] at hf
        rw [ih (.vitems r) _
          (fun d hd => hdecls d (by
            simp only [declsV]
            exact List.mem_append.2 (Or.inr hd)))
          (by omega)]
        rw [ih (.vitem i) s
          (fun d hd => hdecls d (by
            simp only [declsV]
            exact List.mem_append.2 (Or.inl hd)))
          (by omega)]
    · rcases l with _ | ⟨i, r⟩
      · rfl
      · simp only [CheckCrateVisitor.visit]
        simp only [vsize] at hf
        rw [ih (.vtraitItems r) _
          (fun d hd => hdecls d (by
            simp only [declsV]
            exact List.mem_append.2 (Or.inr hd)))
          (by omega)]
        rw [ih (.vtraitItem i) s
          (fun d hd => hdecls d (by
            simp only [declsV]
            exact List.mem_append.2 (Or.inl hd)))
          (by omega)]
    · rcases l with _ | ⟨i, r⟩
      · rfl
      · simp only [CheckCrateVisitor.visit]
        simp only [vsize] at hf
        rw [ih (.vimplItems r) _
          (fun d hd => hdecls d (by
            simp only [declsV]
            exact List.mem_append.2 (Or.inr hd)))
          (by omega)]
        rw [ih (.vimplItem i) s
          (fun d hd => hdecls d (by
            simp only [declsV]
            exact List.mem_append.2 (Or.inl hd)))
          (by omega)]
    · rcases l with _ | ⟨i, r⟩
      · rfl
      · simp only [CheckCrateVisitor.visit]
        simp only [vsize] at hf
        rw [ih (.vexprs r) _
          (fun d hd => hdecls d (by
            simp only [declsV]
            exact List.mem_append.2 (Or.inr hd)))
          (by omega)]
        rw [ih (.vexpr i) s
          (fun d hd => hdecls d (by
            simp only [declsV]
            exact List.mem_append.2 (Or.inl hd)))
          (by omega)]

/-! ## C8: termination and stack-depth bound -/

/-- Spec-side count: the "N local constant-bearing declarations" of the spec,
i.e. declarations for which the crate visitor launches a recursion checker
(statics, consts, trait consts with a default body, impl consts). -/
def Decl.constBearing : Decl → Bool
  | .item (.mk _ _ (.itemStatic _)) => true
  | .item (.mk _ _ (.itemConst _)) => true
  | .traitItem (.mk _ _ (.constTraitItem (some _))) => true
  | .implItem (.mk _ _ (.constImplItem _)) => true
  | _ => false

def numConstDecls (am : AstMap) (krate : List Item) : Nat :=
  (((declTable am krate).filter (fun d => d.constBearing)).map Decl.id).dedup.length

/-- A crate with a single `const` whose initializer block contains a nested
non-constant item (a `fn`-like item): one constant-bearing declaration, but the
checker also pushes the nested item's id. -/
def c8Item : Item := .mk 1 10 (.itemConst (.comp 5 50 [] [.mk 2 20 (.itemOther [] [])]))

def c8Krate : List Item := [c8Item]

def c8Dm : DefMap := []

def c8Am : AstMap := []

/-- Counterexample to the literal bound of C8: on `c8Krate` the visit stack
reaches depth 2 although the crate has only one constant-bearing declaration,
because `visit_item` pushes the id of the nested non-constant item as well. -/
theorem stack_depth_exceeds_constant_decl_count :
    ¬ ((check_crate c8Dm c8Am 20 c8Krate).1.maxDepth ≤ numConstDecls c8Am c8Krate) := by
  have ht : declTable c8Am c8Krate =
      [Decl.item c8Item, Decl.item (.mk 2 20 (.itemOther [] []))] := by
    simp [declTable, declsV, c8Am, c8Krate, c8Item]
  simp only [numConstDecls]
  rw [ht]
  decide

/-- **C8** (amended). The pass terminates on every finite program, including
cyclic ones: with fuel at least `crateFuelBound` the traversal runs to
completion (never exhausts fuel), and the visit stack depth never exceeds the
number of local declarations of any kind (`numDecls`) — not merely the
constant-bearing ones — since a repeat identifier is rejected before being
pushed and every push is matched by a pop. -/
theorem pass_terminates_with_stack_depth_bounded_by_decl_count
    (dm : DefMap) (am : AstMap) (krate : List Item) (fuel : Nat) :
    (check_crate dm am fuel krate).1.maxDepth ≤ numDecls am krate ∧
    (crateFuelBound am krate ≤ fuel →
      (check_crate dm am fuel krate).1.fuelOut = false) := by
  constructor
  · simp only [check_crate]
    exact crate_maxDepth_le dm am krate fuel (.vitems krate) freshState
      (fun d hd => by simp only [declTable]; exact List.mem_append.2 (Or.inl hd))
      (Nat.zero_le _)
  · intro hfuel
    have h := crate_fuel_enough dm am krate fuel (.vitems krate) freshState
      (fun d hd => by simp only [declTable]; exact List.mem_append.2 (Or.inl hd))
      hfuel
    simpa [check_crate, freshState] using h

theorem pass_terminates_with_stack_depth_bounded_by_decl_count_witness :
    (check_crate c8Dm c8Am (crateFuelBound c8Am c8Krate) c8Krate).1.maxDepth ≤
      numDecls c8Am c8Krate ∧
    (check_crate c8Dm c8Am (crateFuelBound c8Am c8Krate) c8Krate).1.fuelOut = false :=
  ⟨(pass_terminates_with_stack_depth_bounded_by_decl_count c8Dm c8Am c8Krate _).1,
   (pass_terminates_with_stack_depth_bounded_by_decl_count c8Dm c8Am c8Krate _).2
     (le_refl _)⟩
